import Mathlib

/-!
Verification development for `ccsim/neighborhood.py`.

The Python module implements an undirected, metadata-bearing interaction
graph (`PairwiseNeighborhood`, a thin wrapper around three dicts) together
with topology generators (linear chain, 2D rectangular von Neumann grid,
2D hexagonal grid, each with an optional boundary-wrapping mode) and three
unimplemented stubs (Moore 2D, rectangular 3D, hexagonal 3D).

The embedding below models:
  * Python values attached as metadata by a small inductive `PyVal`
    carrying Python truthiness (`if meta:` tests);
  * Python exceptions by `Except PyErr`; a raising method returns
    `.error`, a normal return is `.ok`;
  * each Python dict by a `PyDict`: a finite set of present keys plus a
    total value function (the function is junk outside `keys`).
Node identifiers in all generators are natural numbers, as in the source.
The generators' loops are translated into structural recursions threading
the running index `i` exactly as the source mutates it.  Natural-number
subtraction is used where the source computes `i - cols` etc.; at every
use site reached with the parameters the claims allow, the subtrahend
does not exceed `i`, so this agrees with Python's integer arithmetic.
-/

/-- A Python value usable as metadata.  `truthy` mirrors Python's
truth-testing of these values (`if meta:`). -/
inductive PyVal where
  | none
  | bool (b : Bool)
  | int (n : Int)
  | str (s : String)
  deriving DecidableEq, Repr

/-- Python truthiness: `None`, `False`, `0`, `''` are falsy. -/
def PyVal.truthy : PyVal → Bool
  | .none => false
  | .bool b => b
  | .int n => decide (n ≠ 0)
  | .str s => decide (s ≠ "")

/-- A raised Python exception.  The source raises bare `Exception`s
(duplicate node, unknown node, hex parity) and `KeyError`s (unknown node
in removal operations). -/
inductive PyErr where
  | exn
  | keyError
  deriving DecidableEq, Repr

/-- A Python dict with keys of type `α`: the set of present keys plus a
total assignment of values (meaningless outside `keys`). -/
structure PyDict (α : Type) (β : Type) [DecidableEq α] where
  keys : Finset α
  val : α → β

namespace PyDict

variable {α β : Type} [DecidableEq α]

/-- `d[k] = v`. -/
def set (d : PyDict α β) (k : α) (v : β) : PyDict α β :=
  ⟨insert k d.keys, Function.update d.val k v⟩

/-- `d.get(k)` (returns `None` when the key is absent). -/
def get? (d : PyDict α β) (k : α) : Option β :=
  if k ∈ d.keys then some (d.val k) else none

/-- `del d[k]` for a key known (or checked) to be present; erasing an
absent key is a no-op, matching the source's `if k in d: del d[k]`
usage. -/
def del (d : PyDict α β) (k : α) : PyDict α β :=
  ⟨d.keys.erase k, d.val⟩

end PyDict

/-- The `neighborhood` dict: node id to set of neighbor ids. -/
abbrev NDict := PyDict Nat (Finset Nat)

/-- A fresh empty dict (`dict()`). -/
def NDict.dempty : NDict := ⟨∅, fun _ => ∅⟩

/-- `d[k].add(x)` on a dict of sets (the source only applies this to
present keys; on an absent key Python would raise `KeyError`, a case no
generator or method reaches). -/
def PyDict.setAdd (d : NDict) (k x : Nat) : NDict :=
  ⟨d.keys, Function.update d.val k (insert x (d.val k))⟩

/-- `d[k].remove(x)` on a dict of sets, for an element known to be
present (Python raises `KeyError` otherwise; the callers below check or
guarantee presence). -/
def PyDict.setRemove (d : NDict) (k x : Nat) : NDict :=
  ⟨d.keys, Function.update d.val k ((d.val k).erase x)⟩

/-- The statement pair `d[a].add(b); d[b].add(a)`, the source's idiom for
inserting one undirected edge. -/
def PyDict.pairAdd (d : NDict) (a b : Nat) : NDict :=
  (d.setAdd a b).setAdd b a

/-- The statement pair `d[i].add(i+1); d[i+1] = set([i])`: link the
current node `i` right to a freshly created node `i+1`.  All three
implemented generators grow each row with exactly this step. -/
def PyDict.linkNew (d : NDict) (i : Nat) : NDict :=
  (d.setAdd i (i+1)).set (i+1) {i}

/-- Number of undirected interactions: each unordered pair is counted
once, at its smaller endpoint (a self-loop is counted once). -/
def PyDict.edgeCount (d : NDict) : Nat :=
  ∑ x ∈ d.keys, ((d.val x).filter (fun y => x ≤ y)).card

/-- The metadata dicts. -/
abbrev MDict := PyDict Nat PyVal
abbrev IMDict := PyDict (Nat × Nat) PyVal

def MDict.dempty : MDict := ⟨∅, fun _ => PyVal.none⟩
def IMDict.dempty : IMDict := ⟨∅, fun _ => PyVal.none⟩

/-- The graph class: three dicts, exactly the attributes of the Python
class. -/
structure PairwiseNeighborhood where
  neighborhood : NDict
  node_metadata : MDict
  interaction_metadata : IMDict

namespace PairwiseNeighborhood

/-- A `PairwiseNeighborhood(neighborhood)` construction as the generators
perform it: the given adjacency dict and fresh empty metadata dicts. -/
def ofNeighborhood (d : NDict) : PairwiseNeighborhood :=
  ⟨d, MDict.dempty, IMDict.dempty⟩

/-- `add_node`: raises if the id exists; otherwise creates the node with
an empty neighbor set and stores metadata only when it is truthy
(`if meta:`). -/
def add_node (g : PairwiseNeighborhood) (nid : Nat) (meta : PyVal) :
    Except PyErr PairwiseNeighborhood :=
  if nid ∈ g.neighborhood.keys then .error .exn
  else .ok
    { g with
      neighborhood := g.neighborhood.set nid ∅
      node_metadata :=
        if meta.truthy then g.node_metadata.set nid meta else g.node_metadata }

/-- `add_node_metadata`: raises if the id does not exist; otherwise
stores the metadata unconditionally. -/
def add_node_metadata (g : PairwiseNeighborhood) (nid : Nat) (meta : PyVal) :
    Except PyErr PairwiseNeighborhood :=
  if nid ∉ g.neighborhood.keys then .error .exn
  else .ok { g with node_metadata := g.node_metadata.set nid meta }

/-- `add_interaction`: implicitly creates missing endpoints (via
`add_node`, which cannot raise here since absence was just checked),
inserts the edge in both directions, and stores metadata under both
ordered pairs only when it is truthy (`if meta:`).  Never raises. -/
def add_interaction (g : PairwiseNeighborhood) (nid1 nid2 : Nat) (meta : PyVal) :
    PairwiseNeighborhood :=
  let g1 :=
    if nid1 ∈ g.neighborhood.keys then g
    else { g with neighborhood := g.neighborhood.set nid1 ∅ }
  let g2 :=
    if nid2 ∈ g1.neighborhood.keys then g1
    else { g1 with neighborhood := g1.neighborhood.set nid2 ∅ }
  { g2 with
    neighborhood := g2.neighborhood.pairAdd nid1 nid2
    interaction_metadata :=
      if meta.truthy then
        (g2.interaction_metadata.set (nid1, nid2) meta).set (nid2, nid1) meta
      else g2.interaction_metadata }

/-- `add_interaction_metadata`: raises `KeyError` if either endpoint is
absent; otherwise stores the metadata under both ordered pairs,
unconditionally - the edge itself is not required to exist. -/
def add_interaction_metadata (g : PairwiseNeighborhood) (nid1 nid2 : Nat)
    (meta : PyVal) : Except PyErr PairwiseNeighborhood :=
  if nid1 ∉ g.neighborhood.keys then .error .keyError
  else if nid2 ∉ g.neighborhood.keys then .error .keyError
  else .ok
    { g with
      interaction_metadata :=
        (g.interaction_metadata.set (nid1, nid2) meta).set (nid2, nid1) meta }

/-- `remove_interaction`: raises `KeyError` if either endpoint is absent,
or (from `set.remove`) if either directed entry is missing; otherwise
removes both adjacency entries and deletes any metadata under both
ordered pairs. -/
def remove_interaction (g : PairwiseNeighborhood) (nid1 nid2 : Nat) :
    Except PyErr PairwiseNeighborhood :=
  if nid1 ∉ g.neighborhood.keys then .error .keyError
  else if nid2 ∉ g.neighborhood.keys then .error .keyError
  else if nid2 ∉ g.neighborhood.val nid1 then .error .keyError
  else if nid1 ∉ g.neighborhood.val nid2 then .error .keyError
  else .ok
    { g with
      neighborhood :=
        (g.neighborhood.setRemove nid1 nid2).setRemove nid2 nid1
      interaction_metadata :=
        (g.interaction_metadata.del (nid1, nid2)).del (nid2, nid1) }

/-- `remove_node`: raises `KeyError` if the id is absent; otherwise, the
net effect of the source's loop over `neighborhood[nid]` - each
neighbor's set loses `nid`, the edge metadata keys `(nid, o)` and
`(o, nid)` are deleted for every neighbor `o` - followed by deletion of
the node's metadata and of the node entry itself. -/
def remove_node (g : PairwiseNeighborhood) (nid : Nat) :
    Except PyErr PairwiseNeighborhood :=
  if nid ∉ g.neighborhood.keys then .error .keyError
  else .ok
    { neighborhood :=
        ⟨g.neighborhood.keys.erase nid,
         fun x =>
           if x ∈ g.neighborhood.val nid then (g.neighborhood.val x).erase nid
           else g.neighborhood.val x⟩
      node_metadata := g.node_metadata.del nid
      interaction_metadata :=
        ⟨g.interaction_metadata.keys.filter
           (fun p => ¬((p.1 = nid ∧ p.2 ∈ g.neighborhood.val nid) ∨
                       (p.2 = nid ∧ p.1 ∈ g.neighborhood.val nid))),
         g.interaction_metadata.val⟩ }

/-- `get_neighbors`: the neighbor set, or an empty set for an unknown
id (`dict.get` plus the `None` fallback). -/
def get_neighbors (g : PairwiseNeighborhood) (nid : Nat) : Finset Nat :=
  match g.neighborhood.get? nid with
  | some s => s
  | Option.none => ∅

/-- `get_node_metadata`: `dict.get`, i.e. `None` when unset. -/
def get_node_metadata (g : PairwiseNeighborhood) (nid : Nat) : Option PyVal :=
  g.node_metadata.get? nid

/-- `get_interaction_metadata`: `dict.get` on the ordered pair. -/
def get_interaction_metadata (g : PairwiseNeighborhood) (nid1 nid2 : Nat) :
    Option PyVal :=
  g.interaction_metadata.get? (nid1, nid2)

/-- Number of undirected interactions of the graph. -/
def edgeCount (g : PairwiseNeighborhood) : Nat := g.neighborhood.edgeCount

end PairwiseNeighborhood

/-! ## Topology generators -/

/-- The row-building loop `for nid in range(k): d[nid].add(nid+1);
d[nid+1] = set([nid])` shared by the linear generator and the first row
of the grid generators, threading the running index. -/
def firstRowFold : Nat → NDict × Nat → NDict × Nat
  | 0, s => s
  | k+1, (d, i) => firstRowFold k (d.linkNew i, i+1)

/-- `linear_to_pairwise_neighborhood`: path of `Np` nodes, closed into a
ring when `boundary_adjustment` is set. -/
def linear_to_pairwise_neighborhood (Np : Nat) (boundary_adjustment : Bool) :
    PairwiseNeighborhood :=
  if Np = 1 then
    PairwiseNeighborhood.ofNeighborhood (NDict.dempty.set 0 ∅)
  else
    let s := firstRowFold (Np - 1) (NDict.dempty.set 0 ∅, 0)
    let d :=
      if boundary_adjustment then s.1.pairAdd 0 (Np - 1) else s.1
    PairwiseNeighborhood.ofNeighborhood d

/-- The inner loop of a non-first rectangular row: `cols - 1` iterations
of linking the current node up (`i - cols`) and right (`i + 1`). -/
def rectInnerFold (cols : Nat) : Nat → NDict × Nat → NDict × Nat
  | 0, s => s
  | k+1, (d, i) => rectInnerFold cols k ((d.pairAdd i (i - cols)).linkNew i, i+1)

/-- One non-first rectangular row: advance `i`, create the row's first
node, run the inner loop, then link the row's last node up. -/
def rect2dRow (cols : Nat) (s : NDict × Nat) : NDict × Nat :=
  let i0 := s.2 + 1
  let d0 := s.1.set i0 ∅
  let s1 := rectInnerFold cols (cols - 1) (d0, i0)
  (s1.1.pairAdd s1.2 (s1.2 - cols), s1.2)

/-- `for m in range(1, rows)`: the remaining rectangular rows. -/
def rectRowsFold (cols : Nat) : Nat → NDict × Nat → NDict × Nat
  | 0, s => s
  | k+1, s => rectRowsFold cols k (rect2dRow cols s)

/-- Apply `f 0`, `f 1`, ..., `f (k-1)` in order: the shape of the
boundary-adjustment `for` loops. -/
def upTo (f : Nat → NDict → NDict) : Nat → NDict → NDict
  | 0, d => d
  | k+1, d => f k (upTo f k d)

/-- `rect2d_to_pairwise_von_neumann_neighborhood`: the 4-neighbor grid;
with boundary adjustment, each top-row node is linked to the bottom-row
node of its column and each row's leftmost node to its rightmost. -/
def rect2d_to_pairwise_von_neumann_neighborhood (rows cols : Nat)
    (boundary_adjustment : Bool) : PairwiseNeighborhood :=
  let s0 := firstRowFold (cols - 1) (NDict.dempty.set 0 ∅, 0)
  let s1 := rectRowsFold cols (rows - 1) s0
  let d :=
    if boundary_adjustment then
      let d1 := upTo (fun n d => d.pairAdd n ((rows-1)*cols + n)) cols s1.1
      upTo (fun m d => d.pairAdd (m*cols) (m*cols + (cols - 1))) rows d1
    else s1.1
  PairwiseNeighborhood.ofNeighborhood d

/-- A value returned by one of the unimplemented generator stubs: the
source's `return NotImplementedError()` produces an error *object* as an
ordinary return value. -/
inductive PyObject where
  | neighborhoodObj (g : PairwiseNeighborhood)
  | notImplementedErrorObj

/-- `rect2d_to_pairwise_moore_neighborhood`: the body is
`return NotImplementedError()` - a normal return of an error instance,
not a raise. -/
def rect2d_to_pairwise_moore_neighborhood (rows cols : Nat)
    (boundary_adjustment : Bool) : Except PyErr PyObject :=
  .ok .notImplementedErrorObj

/-- The inner loop of a non-first hexagonal row: each iteration links the
current node top-left (`i - tlo`), top-right (`i - tlo + 1`) and right. -/
def hexInnerFold (tlo : Nat) : Nat → NDict × Nat → NDict × Nat
  | 0, s => s
  | k+1, (d, i) =>
      hexInnerFold tlo k (((d.pairAdd i (i - tlo)).pairAdd i (i - tlo + 1)).linkNew i, i+1)

/-- One non-first hexagonal row `m` (`modd` is `m % 2 == 1`):
`top_left_offset` is `cols` for odd rows and `cols + 1` for even rows;
even rows first link their leading node top-right and right, then both
parities run the inner loop and link the closing node top-left, and even
rows also link it top-right. -/
def hex2dRow (cols : Nat) (modd : Bool) (s : NDict × Nat) : NDict × Nat :=
  let i0 := s.2 + 1
  let d0 := s.1.set i0 ∅
  let tlo := if modd then cols else cols + 1
  let s1 :=
    if modd then hexInnerFold tlo (cols - 1) (d0, i0)
    else hexInnerFold tlo (cols - 1 - 1) ((d0.pairAdd i0 (i0 - tlo + 1)).linkNew i0, i0 + 1)
  let d2 := s1.1.pairAdd s1.2 (s1.2 - tlo)
  (if modd then d2 else d2.pairAdd s1.2 (s1.2 - tlo + 1), s1.2)

/-- `for m in range(1, rows)`: the remaining hexagonal rows, tracking the
row index for its parity. -/
def hexRowsFold (cols : Nat) : Nat → Nat → NDict × Nat → NDict × Nat
  | 0, _, s => s
  | k+1, m, s => hexRowsFold cols k (m+1) (hex2dRow cols (decide (m % 2 = 1)) s)

/-- The hexagonal boundary-adjustment block.  `bottom_row_ids[i-1]` for
`i = 0` is Python's index `-1`, the *last* bottom-row id. -/
def hexBd (rows cols : Nat) (d : NDict) : NDict :=
  let d := upTo
    (fun i d =>
      (d.pairAdd i
        (if i = 0 then (rows-1)*cols + (cols-1) else (rows-1)*cols + (i-1))).pairAdd
        i ((rows-1)*cols + i))
    cols d
  let d := d.pairAdd 0 (cols - 1)
  upTo
    (fun k d =>
      let r := k + 1
      let d := d.pairAdd (r*cols) (r*cols + (cols-1))
      if r % 2 = 1 then d.pairAdd (r*cols + (cols-1)) ((r-1)*cols)
      else d.pairAdd (r*cols) (r*cols - 1))
    (rows - 1) d

/-- `hex2d_to_pairwise_neighborhood`: offset ("brick-wall") hexagonal
grid.  With boundary adjustment an odd row count raises (the parity
check sits inside the `if boundary_adjustment:` block, after the main
construction). -/
def hex2d_to_pairwise_neighborhood (rows cols : Nat)
    (boundary_adjustment : Bool) : Except PyErr PairwiseNeighborhood :=
  let s0 := firstRowFold (cols - 1) (NDict.dempty.set 0 ∅, 0)
  let s1 := hexRowsFold cols (rows - 1) 1 s0
  if boundary_adjustment then
    if rows % 2 ≠ 0 then .error .exn
    else .ok (PairwiseNeighborhood.ofNeighborhood (hexBd rows cols s1.1))
  else .ok (PairwiseNeighborhood.ofNeighborhood s1.1)

/-- `rect3d_to_pairwise_neighborhood`: `return NotImplementedError()`. -/
def rect3d_to_pairwise_neighborhood (Np : Nat) (boundary_adjustment : Bool) :
    Except PyErr PyObject :=
  .ok .notImplementedErrorObj

/-- `hex3d_to_pairwise_neighborhood`: `return NotImplementedError()`. -/
def hex3d_to_pairwise_neighborhood (Np : Nat) (boundary_adjustment : Bool) :
    Except PyErr PyObject :=
  .ok .notImplementedErrorObj

/-! ## Basic facts about the dictionary operations -/

namespace PyDict

theorem setAdd_keys (d : NDict) (k x : Nat) : (d.setAdd k x).keys = d.keys := rfl

theorem pairAdd_keys (d : NDict) (a b : Nat) : (d.pairAdd a b).keys = d.keys := rfl

theorem linkNew_keys (d : NDict) (i : Nat) :
    (d.linkNew i).keys = insert (i+1) d.keys := rfl

theorem setGen_keys {α β : Type} [DecidableEq α] (d : PyDict α β) (k : α) (v : β) :
    (d.set k v).keys = insert k d.keys := rfl

theorem mem_setAdd_val (d : NDict) (k x z y : Nat) :
    y ∈ (d.setAdd k x).val z ↔ y ∈ d.val z ∨ (z = k ∧ y = x) := by
  unfold setAdd
  rcases eq_or_ne z k with h | h
  · subst h; simp [Finset.mem_insert]; tauto
  · simp [Function.update_apply, h]

theorem mem_pairAdd_val (d : NDict) (a b z y : Nat) :
    y ∈ (d.pairAdd a b).val z ↔
      y ∈ d.val z ∨ (z = a ∧ y = b) ∨ (z = b ∧ y = a) := by
  unfold pairAdd
  rw [mem_setAdd_val, mem_setAdd_val]
  tauto

theorem mem_linkNew_val (d : NDict) (i z y : Nat) :
    y ∈ (d.linkNew i).val z ↔
      (z = i+1 ∧ y = i) ∨ (z ≠ i+1 ∧ (y ∈ d.val z ∨ (z = i ∧ y = i+1))) := by
  unfold linkNew set
  rcases eq_or_ne z (i+1) with h | h
  · subst h
    simp [Function.update_apply, mem_setAdd_val]
  · simp only [Function.update_apply, if_neg h]
    rw [mem_setAdd_val]
    tauto

theorem mem_set_val (d : NDict) (k z y : Nat) (v : Finset Nat) :
    y ∈ (d.set k v).val z ↔ (z = k ∧ y ∈ v) ∨ (z ≠ k ∧ y ∈ d.val z) := by
  unfold set
  rcases eq_or_ne z k with h | h
  · subst h; simp [Function.update_apply]
  · simp [Function.update_apply, h]

theorem mem_setRemove_val (d : NDict) (k x z y : Nat) :
    y ∈ (d.setRemove k x).val z ↔
      (z = k ∧ y ≠ x ∧ y ∈ d.val z) ∨ (z ≠ k ∧ y ∈ d.val z) := by
  unfold setRemove
  rcases eq_or_ne z k with h | h
  · subst h; simp [Function.update_apply, Finset.mem_erase]
  · simp [Function.update_apply, h]

end PyDict

/-! ## The construction invariant

Every generator grows its adjacency dict through `set _ ∅` (row starts),
`linkNew` (right-link to a fresh node) and `pairAdd` (the two mirrored
`add` statements).  The invariant below - contiguous keys, mirrored
entries, entries bounded by the frontier, no self-loops - is maintained
by these steps. -/

/-- Invariant of a partially built adjacency dict with frontier `t`:
keys are `0..t-1`, the value function is symmetric, every recorded entry
is below `t`, and no node lists itself. -/
structure DInv (d : NDict) (t : Nat) : Prop where
  keys_eq : d.keys = Finset.range t
  symm : ∀ a b, b ∈ d.val a ↔ a ∈ d.val b
  bound : ∀ a b, b ∈ d.val a → a < t ∧ b < t
  noself : ∀ a, a ∉ d.val a

theorem DInv.emptySetD : DInv (NDict.dempty.set 0 ∅) 1 := by
  refine ⟨?_, ?_, ?_, ?_⟩
  · rfl
  · intro a b
    rw [PyDict.mem_set_val, PyDict.mem_set_val]
    simp [NDict.dempty]
  · intro a b h
    rw [PyDict.mem_set_val] at h
    simp [NDict.dempty] at h
  · intro a h
    rw [PyDict.mem_set_val] at h
    simp [NDict.dempty] at h

theorem DInv.pairAddD {d : NDict} {t a b : Nat} (h : DInv d t)
    (ha : a < t) (hb : b < t) (hab : a ≠ b) : DInv (d.pairAdd a b) t := by
  refine ⟨by rw [PyDict.pairAdd_keys, h.keys_eq], ?_, ?_, ?_⟩
  · intro x y
    rw [PyDict.mem_pairAdd_val, PyDict.mem_pairAdd_val, h.symm x y]
    tauto
  · intro x y hxy
    rw [PyDict.mem_pairAdd_val] at hxy
    rcases hxy with hxy | ⟨hx, hy⟩ | ⟨hx, hy⟩
    · exact h.bound x y hxy
    · omega
    · omega
  · intro x hx
    rw [PyDict.mem_pairAdd_val] at hx
    rcases hx with hx | ⟨hx, hy⟩ | ⟨hx, hy⟩
    · exact h.noself x hx
    · omega
    · omega

theorem DInv.val_frontier {d : NDict} {i : Nat} (h : DInv d (i+1)) :
    ∀ x y, y ∈ d.val x → y ≤ i ∧ x ≤ i := by
  intro x y hxy
  have := h.bound x y hxy
  omega

theorem DInv.linkNewD {d : NDict} {i : Nat} (h : DInv d (i+1)) :
    DInv (d.linkNew i) (i+2) := by
  have hfr := h.val_frontier
  refine ⟨?_, ?_, ?_, ?_⟩
  · rw [PyDict.linkNew_keys, h.keys_eq]
    rw [Finset.range_add_one (n := i+1)]
  · intro x y
    rw [PyDict.mem_linkNew_val, PyDict.mem_linkNew_val]
    constructor
    · rintro (⟨hx, hy⟩ | ⟨hx, hy | ⟨hxi, hyi⟩⟩)
      · subst hx; subst hy
        right
        constructor
        · omega
        · right; exact ⟨rfl, rfl⟩
      · right
        constructor
        · intro hc
          have h2 := hfr x y hy
          omega
        · left; exact (h.symm x y).mp hy
      · subst hxi; subst hyi
        left; exact ⟨rfl, rfl⟩
    · rintro (⟨hy, hx⟩ | ⟨hy, hx | ⟨hyi, hxi⟩⟩)
      · subst hy; subst hx
        right
        refine ⟨by omega, Or.inr ⟨rfl, rfl⟩⟩
      · right
        constructor
        · intro hc
          have h2 := hfr y x hx
          omega
        · left; exact (h.symm x y).mpr hx
      · subst hyi; subst hxi
        left; exact ⟨rfl, rfl⟩
  · intro x y hxy
    rw [PyDict.mem_linkNew_val] at hxy
    rcases hxy with ⟨hx, hy⟩ | ⟨hx, hy | ⟨hxi, hyi⟩⟩
    · omega
    · have := h.bound x y hy; omega
    · omega
  · intro x hx
    rw [PyDict.mem_linkNew_val] at hx
    rcases hx with ⟨hx, hy⟩ | ⟨hx, hy | ⟨hxi, hyi⟩⟩
    · omega
    · exact h.noself x hy
    · omega

theorem DInv.setEmptyD {d : NDict} {t : Nat} (h : DInv d t) :
    DInv (d.set t ∅) (t+1) := by
  refine ⟨?_, ?_, ?_, ?_⟩
  · rw [PyDict.setGen_keys, h.keys_eq, Finset.range_add_one]
  · intro x y
    rw [PyDict.mem_set_val, PyDict.mem_set_val]
    constructor
    · rintro (⟨_, hy⟩ | ⟨hx, hy⟩)
      · exact absurd hy (Finset.not_mem_empty _)
      · right
        refine ⟨?_, (h.symm x y).mp hy⟩
        intro hc
        have h2 := h.bound x y hy
        omega
    · rintro (⟨_, hx⟩ | ⟨hy, hx⟩)
      · exact absurd hx (Finset.not_mem_empty _)
      · right
        refine ⟨?_, (h.symm x y).mpr hx⟩
        intro hc
        have h2 := h.bound y x hx
        omega
  · intro x y hxy
    rw [PyDict.mem_set_val] at hxy
    rcases hxy with ⟨_, hy⟩ | ⟨hx, hy⟩
    · exact absurd hy (Finset.not_mem_empty _)
    · have := h.bound x y hy; omega
  · intro x hx
    rw [PyDict.mem_set_val] at hx
    rcases hx with ⟨_, hy⟩ | ⟨hx, hy⟩
    · exact absurd hy (Finset.not_mem_empty _)
    · exact h.noself x hy

/-! ## Edge counting along the construction -/

/-- The summand of `edgeCount`: interactions counted at node `x`. -/
def PyDict.countAt (d : NDict) (x : Nat) : Nat :=
  ((d.val x).filter (fun y => x ≤ y)).card

theorem PyDict.edgeCount_eq_sum (d : NDict) :
    d.edgeCount = ∑ x ∈ d.keys, d.countAt x := rfl

theorem PyDict.pairAdd_val_left {d : NDict} {a b : Nat} (hab : a ≠ b) :
    (d.pairAdd a b).val a = insert b (d.val a) := by
  unfold pairAdd setAdd
  simp [Function.update_apply, hab]

theorem PyDict.pairAdd_val_right {d : NDict} {a b : Nat} (hab : a ≠ b) :
    (d.pairAdd a b).val b = insert a (d.val b) := by
  unfold pairAdd setAdd
  simp [Function.update_apply, Ne.symm hab]

theorem PyDict.pairAdd_val_other {d : NDict} {a b x : Nat} (hxa : x ≠ a)
    (hxb : x ≠ b) : (d.pairAdd a b).val x = d.val x := by
  unfold pairAdd setAdd
  simp [Function.update_apply, hxa, hxb]

theorem PyDict.linkNew_val_top (d : NDict) (i : Nat) :
    (d.linkNew i).val (i+1) = {i} := by
  unfold linkNew set
  simp

theorem PyDict.linkNew_val_other {d : NDict} {i x : Nat} (hx : x ≠ i + 1) :
    (d.linkNew i).val x = if x = i then insert (i+1) (d.val x) else d.val x := by
  unfold linkNew set setAdd
  rcases eq_or_ne x i with h | h
  · subst h; simp [Function.update_apply, hx]
  · simp [Function.update_apply, hx, h]

theorem PyDict.set_val_self (d : NDict) (k : Nat) (v : Finset Nat) :
    (d.set k v).val k = v := by
  unfold set; simp

theorem PyDict.set_val_other {d : NDict} {k x : Nat} (v : Finset Nat)
    (hx : x ≠ k) : (d.set k v).val x = d.val x := by
  unfold set; simp [Function.update_apply, hx]

theorem edgeCount_pairAdd {d : NDict} {t a b : Nat} (h : DInv d t)
    (ha : a < t) (hb : b < t) (hab : a ≠ b) (hfresh : b ∉ d.val a) :
    (d.pairAdd a b).edgeCount = d.edgeCount + 1 := by
  have hfresh' : a ∉ d.val b := fun hc => hfresh ((h.symm a b).mpr hc)
  have hma : a ∈ d.keys := by rw [h.keys_eq]; exact Finset.mem_range.mpr ha
  have hmb : b ∈ d.keys := by rw [h.keys_eq]; exact Finset.mem_range.mpr hb
  have hmab : a ∈ d.keys \ {b} := by
    rw [Finset.mem_sdiff, Finset.mem_singleton]; exact ⟨hma, hab⟩
  set Ca := (d.pairAdd a b).countAt a with hCa
  set Cb := (d.pairAdd a b).countAt b with hCb
  have hpoint : ∀ x ∈ d.keys, (d.pairAdd a b).countAt x =
      Function.update (Function.update d.countAt a Ca) b Cb x := by
    intro x _
    rcases eq_or_ne x b with hxb | hxb
    · subst hxb; simp [Function.update_apply]
    · rcases eq_or_ne x a with hxa | hxa
      · subst hxa; simp [Function.update_apply, hxb, hab]
      · simp only [Function.update_apply, if_neg hxb, if_neg hxa]
        unfold PyDict.countAt
        rw [PyDict.pairAdd_val_other hxa hxb]
  have hstep : (d.pairAdd a b).edgeCount =
      Cb + (Ca + ∑ x ∈ (d.keys \ {b}) \ {a}, d.countAt x) := by
    rw [PyDict.edgeCount_eq_sum, PyDict.pairAdd_keys,
      Finset.sum_congr rfl hpoint, Finset.sum_update_of_mem hmb,
      Finset.sum_update_of_mem hmab]
  have hold : d.edgeCount =
      d.countAt b + (d.countAt a + ∑ x ∈ (d.keys \ {b}) \ {a}, d.countAt x) := by
    rw [PyDict.edgeCount_eq_sum, Finset.sum_eq_sum_diff_singleton_add hmb,
      Finset.sum_eq_sum_diff_singleton_add hmab]
    ring
  rcases le_or_lt a b with hord | hord
  · have hCa2 : Ca = d.countAt a + 1 := by
      rw [hCa]
      unfold PyDict.countAt
      rw [PyDict.pairAdd_val_left hab, Finset.filter_insert, if_pos hord,
        Finset.card_insert_of_not_mem (fun hc => hfresh (Finset.mem_of_mem_filter b hc))]
    have hCb2 : Cb = d.countAt b := by
      rw [hCb]
      unfold PyDict.countAt
      rw [PyDict.pairAdd_val_right hab, Finset.filter_insert,
        if_neg (by omega)]
    omega
  · have hCa2 : Ca = d.countAt a := by
      rw [hCa]
      unfold PyDict.countAt
      rw [PyDict.pairAdd_val_left hab, Finset.filter_insert, if_neg (by omega)]
    have hCb2 : Cb = d.countAt b + 1 := by
      rw [hCb]
      unfold PyDict.countAt
      rw [PyDict.pairAdd_val_right hab, Finset.filter_insert, if_pos (by omega),
        Finset.card_insert_of_not_mem (fun hc => hfresh' (Finset.mem_of_mem_filter a hc))]
    omega

theorem edgeCount_linkNew {d : NDict} {i : Nat} (h : DInv d (i+1)) :
    (d.linkNew i).edgeCount = d.edgeCount + 1 := by
  have hmi : i ∈ d.keys := by rw [h.keys_eq]; exact Finset.mem_range.mpr (by omega)
  have hni : i + 1 ∉ d.keys := by rw [h.keys_eq]; simp
  have htop : (d.linkNew i).countAt (i+1) = 0 := by
    unfold PyDict.countAt
    rw [PyDict.linkNew_val_top, Finset.filter_singleton, if_neg (by omega)]
    rfl
  have hCi : (d.linkNew i).countAt i = d.countAt i + 1 := by
    unfold PyDict.countAt
    rw [PyDict.linkNew_val_other (by omega), if_pos rfl, Finset.filter_insert,
      if_pos (by omega), Finset.card_insert_of_not_mem]
    intro hc
    have := (h.bound i (i+1) (Finset.mem_of_mem_filter _ hc)).2
    omega
  have hpoint : ∀ x ∈ d.keys, (d.linkNew i).countAt x =
      Function.update d.countAt i ((d.linkNew i).countAt i) x := by
    intro x hx
    rcases eq_or_ne x i with hxi | hxi
    · subst hxi; simp [Function.update_apply]
    · rw [Function.update_apply, if_neg hxi]
      unfold PyDict.countAt
      rw [PyDict.linkNew_val_other (fun hc => hni (hc ▸ hx)), if_neg hxi]
  have hstep : (d.linkNew i).edgeCount =
      (d.countAt i + 1) + ∑ x ∈ d.keys \ {i}, d.countAt x := by
    rw [PyDict.edgeCount_eq_sum, PyDict.linkNew_keys, Finset.sum_insert hni,
      htop, Finset.sum_congr rfl hpoint, Finset.sum_update_of_mem hmi, hCi]
    omega
  have hold : d.edgeCount = d.countAt i + ∑ x ∈ d.keys \ {i}, d.countAt x := by
    rw [PyDict.edgeCount_eq_sum, Finset.sum_eq_sum_diff_singleton_add hmi]
    ring
  omega

theorem edgeCount_set_empty {d : NDict} {t : Nat} (h : DInv d t) :
    (d.set t ∅).edgeCount = d.edgeCount := by
  have hnt : t ∉ d.keys := by rw [h.keys_eq]; simp
  have htop : (d.set t ∅).countAt t = 0 := by
    unfold PyDict.countAt
    rw [PyDict.set_val_self]
    rfl
  have hpoint : ∀ x ∈ d.keys, (d.set t ∅).countAt x = d.countAt x := by
    intro x hx
    unfold PyDict.countAt
    rw [PyDict.set_val_other _ (by rintro rfl; exact hnt hx)]
  rw [PyDict.edgeCount_eq_sum, PyDict.setGen_keys, Finset.sum_insert hnt, htop,
    Finset.sum_congr rfl hpoint]
  simp [PyDict.edgeCount_eq_sum]

/-! ## Edge shapes

In the linear and rectangular constructions, every recorded interaction
joins ids differing by exactly `1` or exactly `cols`; this is what makes
the boundary wrap edges provably fresh on large enough grids. -/

/-- All entries join ids at distance `1` or `cols`. -/
def EShape (cols : Nat) (d : NDict) : Prop :=
  ∀ a b, b ∈ d.val a → b = a + 1 ∨ a = b + 1 ∨ b = a + cols ∨ a = b + cols

theorem EShape.pairAddE {cols : Nat} {d : NDict} {a b : Nat}
    (h : EShape cols d)
    (hs : b = a + 1 ∨ a = b + 1 ∨ b = a + cols ∨ a = b + cols) :
    EShape cols (d.pairAdd a b) := by
  intro x y hxy
  rw [PyDict.mem_pairAdd_val] at hxy
  rcases hxy with hxy | ⟨hx, hy⟩ | ⟨hx, hy⟩
  · exact h x y hxy
  · subst hx; subst hy; exact hs
  · subst hx; subst hy; tauto
 
theorem EShape.linkNewE {cols : Nat} {d : NDict} {i : Nat} (h : EShape cols d) :
    EShape cols (d.linkNew i) := by
  intro x y hxy
  rw [PyDict.mem_linkNew_val] at hxy
  rcases hxy with ⟨hx, hy⟩ | ⟨hx, hy | ⟨hxi, hyi⟩⟩
  · subst hx; subst hy; omega
  · exact h x y hy
  · subst hxi; subst hyi; omega

theorem EShape.setEmptyE {cols : Nat} {d : NDict} {t : Nat} (h : EShape cols d) :
    EShape cols (d.set t ∅) := by
  intro x y hxy
  rw [PyDict.mem_set_val] at hxy
  rcases hxy with ⟨_, hy⟩ | ⟨_, hy⟩
  · exact absurd hy (Finset.not_mem_empty _)
  · exact h x y hy

theorem EShape.emptySetE (cols : Nat) : EShape cols (NDict.dempty.set 0 ∅) := by
  intro x y hxy
  rw [PyDict.mem_set_val] at hxy
  rcases hxy with ⟨_, hy⟩ | ⟨_, hy⟩
  · exact absurd hy (Finset.not_mem_empty _)
  · exact absurd hy (Finset.not_mem_empty _)

theorem edgeCount_empty_set : (NDict.dempty.set 0 ∅).edgeCount = 0 := by decide

/-! ## The shared first-row loop -/

theorem firstRowFold_spec (cols k : Nat) :
    ∀ (d : NDict) (i : Nat), DInv d (i+1) → EShape cols d →
      (firstRowFold k (d, i)).2 = i + k ∧
      DInv (firstRowFold k (d, i)).1 ((i + k) + 1) ∧
      (firstRowFold k (d, i)).1.edgeCount = d.edgeCount + k ∧
      EShape cols (firstRowFold k (d, i)).1 := by
  induction k with
  | zero =>
    intro d i hinv hsh
    exact ⟨rfl, hinv, rfl, hsh⟩
  | succ k ih =>
    intro d i hinv hsh
    have h1 : firstRowFold (k+1) (d, i) = firstRowFold k (d.linkNew i, i+1) := rfl
    obtain ⟨hi, hinv2, hcount, hsh2⟩ := ih (d.linkNew i) (i+1) hinv.linkNewD hsh.linkNewE
    refine ⟨?_, ?_, ?_, ?_⟩
    · rw [h1, hi]; omega
    · rw [h1, show i + (k+1) + 1 = (i+1) + k + 1 from by omega]
      exact hinv2
    · rw [h1, hcount, edgeCount_linkNew hinv]
      omega
    · rw [h1]; exact hsh2

/-! ## The linear generator -/

theorem linear_eq_of_ge_two {Np : Nat} (h : 2 ≤ Np) (bd : Bool) :
    linear_to_pairwise_neighborhood Np bd =
      PairwiseNeighborhood.ofNeighborhood
        (if bd then
          (firstRowFold (Np-1) (NDict.dempty.set 0 ∅, 0)).1.pairAdd 0 (Np-1)
        else (firstRowFold (Np-1) (NDict.dempty.set 0 ∅, 0)).1) := by
  unfold linear_to_pairwise_neighborhood
  rw [if_neg (by omega)]

theorem linear_chain_spec (Np : Nat) (h : 2 ≤ Np) :
    (firstRowFold (Np-1) (NDict.dempty.set 0 ∅, 0)).2 = Np - 1 ∧
    DInv (firstRowFold (Np-1) (NDict.dempty.set 0 ∅, 0)).1 Np ∧
    (firstRowFold (Np-1) (NDict.dempty.set 0 ∅, 0)).1.edgeCount = Np - 1 ∧
    EShape 1 (firstRowFold (Np-1) (NDict.dempty.set 0 ∅, 0)).1 := by
  obtain ⟨hi, hinv, hcount, hsh⟩ :=
    firstRowFold_spec 1 (Np-1) (NDict.dempty.set 0 ∅) 0 DInv.emptySetD (EShape.emptySetE 1)
  refine ⟨by omega, ?_, ?_, hsh⟩
  · have he : 0 + (Np - 1) + 1 = Np := by omega
    rw [he] at hinv
    exact hinv
  · rw [hcount, edgeCount_empty_set]
    omega

/-! ## The rectangular generator -/

theorem rectInnerFold_spec (cols k : Nat) (hc : 2 ≤ cols) :
    ∀ (d : NDict) (i : Nat), DInv d (i+1) → EShape cols d → cols ≤ i →
      (∀ y, y ∈ d.val i → y = i - 1) →
      (rectInnerFold cols k (d, i)).2 = i + k ∧
      DInv (rectInnerFold cols k (d, i)).1 ((i + k) + 1) ∧
      (rectInnerFold cols k (d, i)).1.edgeCount = d.edgeCount + 2 * k ∧
      EShape cols (rectInnerFold cols k (d, i)).1 ∧
      (∀ y, y ∈ (rectInnerFold cols k (d, i)).1.val (i + k) → y = (i + k) - 1) := by
  induction k with
  | zero =>
    intro d i hinv hsh hci hfr
    exact ⟨rfl, hinv, rfl, hsh, hfr⟩
  | succ k ih =>
    intro d i hinv hsh hci hfr
    have h1 : rectInnerFold cols (k+1) (d, i) =
        rectInnerFold cols k ((d.pairAdd i (i - cols)).linkNew i, i+1) := rfl
    have hne : i ≠ i - cols := by omega
    have hfresh : i - cols ∉ d.val i := by
      intro hmem
      have := hfr _ hmem
      omega
    have hinv1 : DInv (d.pairAdd i (i - cols)) (i+1) :=
      hinv.pairAddD (by omega) (by omega) hne
    have hcount1 : (d.pairAdd i (i - cols)).edgeCount = d.edgeCount + 1 :=
      edgeCount_pairAdd hinv (by omega) (by omega) hne hfresh
    have hsh1 : EShape cols (d.pairAdd i (i - cols)) :=
      hsh.pairAddE (by omega)
    have hinv2 : DInv ((d.pairAdd i (i - cols)).linkNew i) ((i+1)+1) := hinv1.linkNewD
    have hcount2 : ((d.pairAdd i (i - cols)).linkNew i).edgeCount = d.edgeCount + 2 := by
      rw [edgeCount_linkNew hinv1, hcount1]
    have hfr2 : ∀ y, y ∈ ((d.pairAdd i (i - cols)).linkNew i).val (i+1) → y = (i+1) - 1 := by
      intro y hy
      rw [PyDict.linkNew_val_top] at hy
      simp at hy
      omega
    obtain ⟨hi, hinv3, hcount3, hsh3, hfr3⟩ :=
      ih ((d.pairAdd i (i - cols)).linkNew i) (i+1) hinv2 hsh1.linkNewE (by omega) hfr2
    have heq : (i+1) + k = i + (k+1) := by omega
    rw [heq] at hi hinv3 hfr3
    refine ⟨?_, ?_, ?_, ?_, ?_⟩
    · rw [h1]; exact hi
    · rw [h1]; exact hinv3
    · rw [h1, hcount3, hcount2]; omega
    · rw [h1]; exact hsh3
    · rw [h1]; exact hfr3

theorem rect2dRow_spec (cols : Nat) (hc : 1 ≤ cols) (d : NDict) (i : Nat)
    (hinv : DInv d (i+1)) (hsh : EShape cols d) (hci : cols ≤ i + 1) :
    (rect2dRow cols (d, i)).2 = i + cols ∧
    DInv (rect2dRow cols (d, i)).1 ((i + cols) + 1) ∧
    (rect2dRow cols (d, i)).1.edgeCount = d.edgeCount + (2 * cols - 1) ∧
    EShape cols (rect2dRow cols (d, i)).1 := by
  have hinv0 : DInv (d.set (i+1) ∅) ((i+1)+1) := hinv.setEmptyD
  have hcount0 : (d.set (i+1) ∅).edgeCount = d.edgeCount := edgeCount_set_empty hinv
  have hsh0 : EShape cols (d.set (i+1) ∅) := hsh.setEmptyE
  have hfr0 : ∀ y, y ∈ (d.set (i+1) ∅).val (i+1) → y = (i+1) - 1 := by
    intro y hy
    rw [PyDict.set_val_self] at hy
    exact absurd hy (Finset.not_mem_empty _)
  rcases eq_or_lt_of_le hc with hc1 | hc2
  · -- cols = 1: the inner loop is empty and the row has a single node
    have hc1' : cols = 1 := hc1.symm
    subst hc1'
    have h1 : rect2dRow 1 (d, i) =
        ((d.set (i+1) ∅).pairAdd (i+1) ((i+1) - 1), i+1) := rfl
    have hne : (i+1) ≠ (i+1) - 1 := by omega
    have hfresh : (i+1) - 1 ∉ (d.set (i+1) ∅).val (i+1) := by
      rw [PyDict.set_val_self]
      exact Finset.not_mem_empty _
    rw [h1]
    refine ⟨rfl, ?_, ?_, ?_⟩
    · exact hinv0.pairAddD (by omega) (by omega) hne
    · rw [show ((d.set (i+1) ∅).pairAdd (i+1) ((i+1) - 1), i+1).1 =
          (d.set (i+1) ∅).pairAdd (i+1) ((i+1) - 1) from rfl,
        edgeCount_pairAdd hinv0 (by omega) (by omega) hne hfresh, hcount0]
    · exact hsh0.pairAddE (by omega)
  · -- cols ≥ 2: run the inner loop then close the row with the top link
    obtain ⟨hi, hinv1, hcount1, hsh1, hfr1⟩ :=
      rectInnerFold_spec cols (cols - 1) (by omega) (d.set (i+1) ∅) (i+1) hinv0 hsh0
        (by omega) hfr0
    have hiv : (i+1) + (cols - 1) = i + cols := by omega
    rw [hiv] at hi hinv1 hfr1
    have h1 : rect2dRow cols (d, i) =
        ((rectInnerFold cols (cols - 1) (d.set (i+1) ∅, i+1)).1.pairAdd
          (rectInnerFold cols (cols - 1) (d.set (i+1) ∅, i+1)).2
          ((rectInnerFold cols (cols - 1) (d.set (i+1) ∅, i+1)).2 - cols),
         (rectInnerFold cols (cols - 1) (d.set (i+1) ∅, i+1)).2) := rfl
    have hfresh : (i + cols) - cols ∉
        (rectInnerFold cols (cols - 1) (d.set (i+1) ∅, i+1)).1.val (i + cols) := by
      intro hmem
      have := hfr1 _ hmem
      omega
    rw [h1, hi]
    refine ⟨rfl, ?_, ?_, ?_⟩
    · exact hinv1.pairAddD (by omega) (by omega) (by omega)
    · rw [show ((rectInnerFold cols (cols - 1) (d.set (i+1) ∅, i+1)).1.pairAdd (i + cols)
            ((i + cols) - cols), i + cols).1 =
          (rectInnerFold cols (cols - 1) (d.set (i+1) ∅, i+1)).1.pairAdd (i + cols)
            ((i + cols) - cols) from rfl,
        edgeCount_pairAdd hinv1 (by omega) (by omega) (by omega) hfresh, hcount1, hcount0]
      omega
    · exact hsh1.pairAddE (by omega)

theorem rectRowsFold_spec (cols k : Nat) (hc : 1 ≤ cols) :
    ∀ (d : NDict) (i : Nat), DInv d (i+1) → EShape cols d → cols ≤ i + 1 →
      (rectRowsFold cols k (d, i)).2 = i + k * cols ∧
      DInv (rectRowsFold cols k (d, i)).1 ((i + k * cols) + 1) ∧
      (rectRowsFold cols k (d, i)).1.edgeCount = d.edgeCount + k * (2 * cols - 1) ∧
      EShape cols (rectRowsFold cols k (d, i)).1 := by
  induction k with
  | zero =>
    intro d i hinv hsh hci
    exact ⟨by simp [rectRowsFold], by simpa [rectRowsFold] using hinv,
      by simp [rectRowsFold], by simpa [rectRowsFold] using hsh⟩
  | succ k ih =>
    intro d i hinv hsh hci
    have h1 : rectRowsFold cols (k+1) (d, i) = rectRowsFold cols k (rect2dRow cols (d, i)) := rfl
    obtain ⟨hi2, hinv2, hcount2, hsh2⟩ := rect2dRow_spec cols hc d i hinv hsh hci
    have hpair : rect2dRow cols (d, i) = ((rect2dRow cols (d, i)).1, i + cols) := by
      rw [← hi2]
    obtain ⟨hi3, hinv3, hcount3, hsh3⟩ :=
      ih (rect2dRow cols (d, i)).1 (i + cols) hinv2 hsh2 (by omega)
    rw [← hpair] at hi3 hinv3 hcount3 hsh3
    have hm1 : (k+1) * cols = k * cols + cols := Nat.succ_mul k cols
    have hm2 : (k+1) * (2 * cols - 1) = k * (2 * cols - 1) + (2 * cols - 1) :=
      Nat.succ_mul k (2 * cols - 1)
    refine ⟨?_, ?_, ?_, ?_⟩
    · rw [h1, hi3]; omega
    · rw [h1, show i + (k+1) * cols + 1 = i + cols + k * cols + 1 from by omega]
      exact hinv3
    · rw [h1, hcount3, hcount2]
      omega
    · rw [h1]; exact hsh3

theorem rect_main_spec (rows cols : Nat) (hr : 1 ≤ rows) (hc : 1 ≤ cols) :
    (rectRowsFold cols (rows - 1) (firstRowFold (cols - 1) (NDict.dempty.set 0 ∅, 0))).2 + 1
        = rows * cols ∧
    DInv (rectRowsFold cols (rows - 1) (firstRowFold (cols - 1) (NDict.dempty.set 0 ∅, 0))).1
        (rows * cols) ∧
    (rectRowsFold cols (rows - 1) (firstRowFold (cols - 1) (NDict.dempty.set 0 ∅, 0))).1.edgeCount
        = rows * (cols - 1) + cols * (rows - 1) ∧
    EShape cols
      (rectRowsFold cols (rows - 1) (firstRowFold (cols - 1) (NDict.dempty.set 0 ∅, 0))).1 := by
  obtain ⟨r1, rfl⟩ : ∃ r1, rows = r1 + 1 := ⟨rows - 1, by omega⟩
  obtain ⟨c1, rfl⟩ : ∃ c1, cols = c1 + 1 := ⟨cols - 1, by omega⟩
  simp only [Nat.add_sub_cancel]
  obtain ⟨hi0, hinv0, hcount0, hsh0⟩ :=
    firstRowFold_spec (c1 + 1) c1 (NDict.dempty.set 0 ∅) 0 DInv.emptySetD
      (EShape.emptySetE (c1 + 1))
  have hpair0 : firstRowFold c1 (NDict.dempty.set 0 ∅, 0) =
      ((firstRowFold c1 (NDict.dempty.set 0 ∅, 0)).1, 0 + c1) := by
    rw [← hi0]
  obtain ⟨hi1, hinv1, hcount1, hsh1⟩ :=
    rectRowsFold_spec (c1 + 1) r1 (by omega)
      (firstRowFold c1 (NDict.dempty.set 0 ∅, 0)).1 (0 + c1) hinv0 hsh0 (by omega)
  rw [← hpair0] at hi1 hinv1 hcount1 hsh1
  have hprod : 0 + c1 + r1 * (c1 + 1) + 1 = (r1 + 1) * (c1 + 1) := by ring
  refine ⟨by rw [hi1, hprod], by rw [hprod] at hinv1; exact hinv1, ?_, hsh1⟩
  rw [hcount1, hcount0, edgeCount_empty_set,
    show 2 * (c1 + 1) - 1 = 2 * c1 + 1 from by omega]
  ring

/-! ## Boundary adjustment machinery -/

theorem upTo_succ (f : Nat → NDict → NDict) (k : Nat) (d : NDict) :
    upTo f (k+1) d = f k (upTo f k d) := rfl

theorem upTo_keys (f : Nat → NDict → NDict)
    (hf : ∀ n d, (f n d).keys = d.keys) :
    ∀ (k : Nat) (d : NDict), (upTo f k d).keys = d.keys := by
  intro k
  induction k with
  | zero => intro d; rfl
  | succ k ih =>
    intro d
    rw [upTo_succ, hf, ih]

theorem upTo_preserve (P : NDict → Prop) (f : Nat → NDict → NDict) (k : Nat)
    (hf : ∀ n, n < k → ∀ d, P d → P (f n d)) :
    ∀ d, P d → P (upTo f k d) := by
  induction k with
  | zero => intro d h; exact h
  | succ k ih =>
    intro d h
    rw [upTo_succ]
    exact hf k (by omega) _ (ih (fun n hn => hf n (by omega)) d h)

/-- The invariant kept through boundary adjustment: contiguous keys,
symmetric values, bounded entries (self-loops can appear on degenerate
wraps, so no self-loop clause here). -/
structure SInv (d : NDict) (t : Nat) : Prop where
  keys_eq : d.keys = Finset.range t
  symm : ∀ a b, b ∈ d.val a ↔ a ∈ d.val b
  bound : ∀ a b, b ∈ d.val a → a < t ∧ b < t

theorem DInv.toSInv {d : NDict} {t : Nat} (h : DInv d t) : SInv d t :=
  ⟨h.keys_eq, h.symm, h.bound⟩

theorem SInv.pairAddS {d : NDict} {t a b : Nat} (h : SInv d t)
    (ha : a < t) (hb : b < t) : SInv (d.pairAdd a b) t := by
  refine ⟨by rw [PyDict.pairAdd_keys, h.keys_eq], ?_, ?_⟩
  · intro x y
    rw [PyDict.mem_pairAdd_val, PyDict.mem_pairAdd_val, h.symm x y]
    tauto
  · intro x y hxy
    rw [PyDict.mem_pairAdd_val] at hxy
    rcases hxy with hxy | ⟨hx, hy⟩ | ⟨hx, hy⟩
    · exact h.bound x y hxy
    · omega
    · omega

/-! ### Rectangular boundary adjustment -/

/-- Entries after `k` steps of the vertical wrap loop: either a base
grid edge or one of the first `k` vertical wrap pairs. -/
def VShape (rows cols k : Nat) (d : NDict) : Prop :=
  ∀ a b, b ∈ d.val a →
    (b = a + 1 ∨ a = b + 1 ∨ b = a + cols ∨ a = b + cols) ∨
    (a < k ∧ b = (rows-1)*cols + a) ∨ (b < k ∧ a = (rows-1)*cols + b)

/-- Entries after the vertical wrap loop and `k` steps of the horizontal
wrap loop. -/
def HShape (rows cols k : Nat) (d : NDict) : Prop :=
  ∀ a b, b ∈ d.val a →
    (b = a + 1 ∨ a = b + 1 ∨ b = a + cols ∨ a = b + cols) ∨
    ((a < cols ∧ b = (rows-1)*cols + a) ∨ (b < cols ∧ a = (rows-1)*cols + b)) ∨
    (∃ m, m < k ∧ ((a = m*cols ∧ b = m*cols + (cols-1)) ∨
                   (b = m*cols ∧ a = m*cols + (cols-1))))

theorem rectBdV_spec (rows cols : Nat) (hr : 3 ≤ rows) (hc : 3 ≤ cols) :
    ∀ (k : Nat), k ≤ cols → ∀ d, DInv d (rows*cols) → VShape rows cols 0 d →
      DInv (upTo (fun n d => d.pairAdd n ((rows-1)*cols + n)) k d) (rows*cols) ∧
      VShape rows cols k (upTo (fun n d => d.pairAdd n ((rows-1)*cols + n)) k d) ∧
      (upTo (fun n d => d.pairAdd n ((rows-1)*cols + n)) k d).edgeCount
        = d.edgeCount + k := by
  have e2 : 2 * cols ≤ (rows-1) * cols := Nat.mul_le_mul_right cols (by omega)
  have e1 : (rows-1) * cols + cols = rows * cols := by
    obtain ⟨r1, rfl⟩ : ∃ r1, rows = r1 + 1 := ⟨rows - 1, by omega⟩
    simp only [Nat.add_sub_cancel]
    exact (Nat.succ_mul r1 cols).symm
  intro k
  induction k with
  | zero =>
    intro hk d hinv hsh
    refine ⟨hinv, ?_, rfl⟩
    intro a b hab
    rcases hsh a b hab with hbase | h0 | h0
    · exact Or.inl hbase
    · omega
    · omega
  | succ k ih =>
    intro hk d hinv hsh
    obtain ⟨hinv1, hsh1, hcount1⟩ := ih (by omega) d hinv hsh
    rw [upTo_succ]
    have hka : k < rows * cols := by omega
    have hkb : (rows-1)*cols + k < rows * cols := by omega
    have hne : k ≠ (rows-1)*cols + k := by omega
    have hfresh : (rows-1)*cols + k ∉
        (upTo (fun n d => d.pairAdd n ((rows-1)*cols + n)) k d).val k := by
      intro hmem
      rcases hsh1 k _ hmem with hbase | hW | hW
      · omega
      · omega
      · omega
    refine ⟨hinv1.pairAddD hka hkb hne, ?_, ?_⟩
    · intro a b hab
      rw [PyDict.mem_pairAdd_val] at hab
      rcases hab with hab | ⟨hx, hy⟩ | ⟨hx, hy⟩
      · rcases hsh1 a b hab with hbase | hW | hW
        · exact Or.inl hbase
        · exact Or.inr (Or.inl ⟨by omega, hW.2⟩)
        · exact Or.inr (Or.inr ⟨by omega, hW.2⟩)
      · subst hx; subst hy
        exact Or.inr (Or.inl ⟨by omega, rfl⟩)
      · subst hx; subst hy
        exact Or.inr (Or.inr ⟨by omega, rfl⟩)
    · rw [edgeCount_pairAdd hinv1 hka hkb hne hfresh, hcount1]
      omega

theorem rectBdH_spec (rows cols : Nat) (hr : 3 ≤ rows) (hc : 3 ≤ cols) :
    ∀ (k : Nat), k ≤ rows → ∀ d, DInv d (rows*cols) → HShape rows cols 0 d →
      DInv (upTo (fun m d => d.pairAdd (m*cols) (m*cols + (cols - 1))) k d) (rows*cols) ∧
      HShape rows cols k (upTo (fun m d => d.pairAdd (m*cols) (m*cols + (cols - 1))) k d) ∧
      (upTo (fun m d => d.pairAdd (m*cols) (m*cols + (cols - 1))) k d).edgeCount
        = d.edgeCount + k := by
  have e2 : 2 * cols ≤ (rows-1) * cols := Nat.mul_le_mul_right cols (by omega)
  have e1 : (rows-1) * cols + cols = rows * cols := by
    obtain ⟨r1, rfl⟩ : ∃ r1, rows = r1 + 1 := ⟨rows - 1, by omega⟩
    simp only [Nat.add_sub_cancel]
    exact (Nat.succ_mul r1 cols).symm
  intro k
  induction k with
  | zero =>
    intro hk d hinv hsh
    refine ⟨hinv, ?_, rfl⟩
    intro a b hab
    rcases hsh a b hab with hbase | hW | ⟨m, hm, _⟩
    · exact Or.inl hbase
    · exact Or.inr (Or.inl hW)
    · omega
  | succ k ih =>
    intro hk d hinv hsh
    obtain ⟨hinv1, hsh1, hcount1⟩ := ih (by omega) d hinv hsh
    rw [upTo_succ]
    have hkle : k * cols ≤ (rows-1) * cols := Nat.mul_le_mul_right cols (by omega)
    have hka : k * cols < rows * cols := by omega
    have hkb : k * cols + (cols - 1) < rows * cols := by omega
    have hne : k * cols ≠ k * cols + (cols - 1) := by omega
    have hcolsk : ∀ m : Nat, m < k → m * cols ≤ k * cols :=
      fun m hm => Nat.mul_le_mul_right cols (by omega)
    have hfresh : k * cols + (cols - 1) ∉
        (upTo (fun m d => d.pairAdd (m*cols) (m*cols + (cols - 1))) k d).val (k * cols) := by
      intro hmem
      rcases hsh1 _ _ hmem with hbase | hW | ⟨m, hm, hp⟩
      · omega
      · -- a vertical wrap pair cannot coincide with a horizontal wrap pair
        rcases hW with ⟨hlt, heq⟩ | ⟨hlt, heq⟩
        · rcases Nat.eq_zero_or_pos k with hk0 | hkpos
          · subst hk0; simp at hlt heq; omega
          · have : cols ≤ k * cols := by
              calc cols = 1 * cols := (Nat.one_mul cols).symm
              _ ≤ k * cols := Nat.mul_le_mul_right cols hkpos
            omega
        · rcases Nat.eq_zero_or_pos k with hk0 | hkpos
          · subst hk0; simp at hlt heq; omega
          · have : cols ≤ k * cols := by
              calc cols = 1 * cols := (Nat.one_mul cols).symm
              _ ≤ k * cols := Nat.mul_le_mul_right cols hkpos
            omega
      · have hmk := hcolsk m hm
        have hmk2 : m * cols + cols ≤ k * cols := by
          have : (m+1) * cols ≤ k * cols := Nat.mul_le_mul_right cols (by omega)
          rw [Nat.succ_mul] at this
          omega
        rcases hp with ⟨hp1, hp2⟩ | ⟨hp1, hp2⟩
        · omega
        · omega
    refine ⟨hinv1.pairAddD hka hkb hne, ?_, ?_⟩
    · intro a b hab
      rw [PyDict.mem_pairAdd_val] at hab
      rcases hab with hab | ⟨hx, hy⟩ | ⟨hx, hy⟩
      · rcases hsh1 a b hab with hbase | hW | ⟨m, hm, hp⟩
        · exact Or.inl hbase
        · exact Or.inr (Or.inl hW)
        · exact Or.inr (Or.inr ⟨m, by omega, hp⟩)
      · subst hx; subst hy
        exact Or.inr (Or.inr ⟨k, by omega, Or.inl ⟨rfl, rfl⟩⟩)
      · subst hx; subst hy
        exact Or.inr (Or.inr ⟨k, by omega, Or.inr ⟨rfl, rfl⟩⟩)
    · rw [edgeCount_pairAdd hinv1 hka hkb hne hfresh, hcount1]
      omega

theorem rect_unfold (rows cols : Nat) (bd : Bool) :
    rect2d_to_pairwise_von_neumann_neighborhood rows cols bd =
      PairwiseNeighborhood.ofNeighborhood
        (if bd then
          upTo (fun m d => d.pairAdd (m*cols) (m*cols + (cols - 1))) rows
            (upTo (fun n d => d.pairAdd n ((rows-1)*cols + n)) cols
              (rectRowsFold cols (rows - 1)
                (firstRowFold (cols - 1) (NDict.dempty.set 0 ∅, 0))).1)
        else (rectRowsFold cols (rows - 1)
          (firstRowFold (cols - 1) (NDict.dempty.set 0 ∅, 0))).1) := rfl

theorem rectBd_SInv (rows cols : Nat) (hr : 1 ≤ rows) (hc : 1 ≤ cols) (d : NDict)
    (h : SInv d (rows*cols)) :
    SInv (upTo (fun m d => d.pairAdd (m*cols) (m*cols + (cols - 1))) rows
      (upTo (fun n d => d.pairAdd n ((rows-1)*cols + n)) cols d)) (rows*cols) := by
  have e1 : (rows-1) * cols + cols = rows * cols := by
    obtain ⟨r1, rfl⟩ : ∃ r1, rows = r1 + 1 := ⟨rows - 1, by omega⟩
    simp only [Nat.add_sub_cancel]
    exact (Nat.succ_mul r1 cols).symm
  have hcle : cols ≤ rows * cols := by
    calc cols = 1 * cols := (Nat.one_mul cols).symm
    _ ≤ rows * cols := Nat.mul_le_mul_right cols hr
  refine upTo_preserve (fun d => SInv d (rows*cols)) _ rows ?_ _
    (upTo_preserve (fun d => SInv d (rows*cols)) _ cols ?_ d h)
  · intro m hm d hd
    have hm1 : m * cols ≤ (rows-1) * cols := Nat.mul_le_mul_right cols (by omega)
    exact hd.pairAddS (by omega) (by omega)
  · intro n hn d hd
    exact hd.pairAddS (by omega) (by omega)

theorem rectBd_DInv (rows cols : Nat) (hr : 2 ≤ rows) (hc : 2 ≤ cols) (d : NDict)
    (h : DInv d (rows*cols)) :
    DInv (upTo (fun m d => d.pairAdd (m*cols) (m*cols + (cols - 1))) rows
      (upTo (fun n d => d.pairAdd n ((rows-1)*cols + n)) cols d)) (rows*cols) := by
  have e1 : (rows-1) * cols + cols = rows * cols := by
    obtain ⟨r1, rfl⟩ : ∃ r1, rows = r1 + 1 := ⟨rows - 1, by omega⟩
    simp only [Nat.add_sub_cancel]
    exact (Nat.succ_mul r1 cols).symm
  have hcle : cols ≤ (rows-1) * cols := by
    calc cols = 1 * cols := (Nat.one_mul cols).symm
    _ ≤ (rows-1) * cols := Nat.mul_le_mul_right cols (by omega)
  refine upTo_preserve (fun d => DInv d (rows*cols)) _ rows ?_ _
    (upTo_preserve (fun d => DInv d (rows*cols)) _ cols ?_ d h)
  · intro m hm d hd
    have hm1 : m * cols ≤ (rows-1) * cols := Nat.mul_le_mul_right cols (by omega)
    exact hd.pairAddD (by omega) (by omega) (by omega)
  · intro n hn d hd
    exact hd.pairAddD (by omega) (by omega) (by omega)

theorem rect_keys (rows cols : Nat) (hr : 1 ≤ rows) (hc : 1 ≤ cols) (bd : Bool) :
    (rect2d_to_pairwise_von_neumann_neighborhood rows cols bd).neighborhood.keys
      = Finset.range (rows * cols) := by
  obtain ⟨_, hinv, _, _⟩ := rect_main_spec rows cols hr hc
  rw [rect_unfold]
  cases bd
  · exact hinv.keys_eq
  · show (upTo _ rows (upTo _ cols _)).keys = _
    rw [upTo_keys _ (fun n d => PyDict.pairAdd_keys d _ _),
      upTo_keys _ (fun n d => PyDict.pairAdd_keys d _ _)]
    exact hinv.keys_eq

theorem rect_SInv (rows cols : Nat) (hr : 1 ≤ rows) (hc : 1 ≤ cols) (bd : Bool) :
    SInv (rect2d_to_pairwise_von_neumann_neighborhood rows cols bd).neighborhood
      (rows * cols) := by
  obtain ⟨_, hinv, _, _⟩ := rect_main_spec rows cols hr hc
  rw [rect_unfold]
  cases bd
  · exact hinv.toSInv
  · exact rectBd_SInv rows cols hr hc _ hinv.toSInv

/-- C3 claim theorem (amended): the no-wrap edge-count formula holds for
all `rows, cols ≥ 1`; the wrap formula `rows*cols*2` holds for
`rows, cols ≥ 3` (on smaller grids wrap edges coincide with existing
edges or degenerate). -/
theorem c3_rect_edge_counts :
    (∀ rows cols : Nat, 1 ≤ rows → 1 ≤ cols →
      (rect2d_to_pairwise_von_neumann_neighborhood rows cols false).edgeCount
        = rows * (cols - 1) + cols * (rows - 1)) ∧
    (∀ rows cols : Nat, 3 ≤ rows → 3 ≤ cols →
      (rect2d_to_pairwise_von_neumann_neighborhood rows cols true).edgeCount
        = rows * cols * 2) := by
  constructor
  · intro rows cols hr hc
    obtain ⟨_, _, hcount, _⟩ := rect_main_spec rows cols hr hc
    rw [rect_unfold]
    exact hcount
  · intro rows cols hr hc
    obtain ⟨_, hinv, hcount, hsh⟩ := rect_main_spec rows cols (by omega) (by omega)
    have hV0 : VShape rows cols 0
        (rectRowsFold cols (rows - 1) (firstRowFold (cols - 1) (NDict.dempty.set 0 ∅, 0))).1 := by
      intro a b hab
      exact Or.inl (hsh a b hab)
    obtain ⟨hinvV, hshV, hcountV⟩ :=
      rectBdV_spec rows cols hr hc cols le_rfl _ hinv hV0
    have hH0 : HShape rows cols 0
        (upTo (fun n d => d.pairAdd n ((rows-1)*cols + n)) cols
          (rectRowsFold cols (rows - 1) (firstRowFold (cols - 1) (NDict.dempty.set 0 ∅, 0))).1) := by
      intro a b hab
      rcases hshV a b hab with hbase | hW | hW
      · exact Or.inl hbase
      · exact Or.inr (Or.inl (Or.inl hW))
      · exact Or.inr (Or.inl (Or.inr hW))
    obtain ⟨hinvH, hshH, hcountH⟩ :=
      rectBdH_spec rows cols hr hc rows le_rfl _ hinvV hH0
    rw [rect_unfold]
    show (upTo _ rows (upTo _ cols _)).edgeCount = rows * cols * 2
    rw [hcountH, hcountV, hcount]
    obtain ⟨r1, rfl⟩ : ∃ r1, rows = r1 + 1 := ⟨rows - 1, by omega⟩
    obtain ⟨c1, rfl⟩ : ∃ c1, cols = c1 + 1 := ⟨cols - 1, by omega⟩
    simp only [Nat.add_sub_cancel]
    ring

/-- C3 counterexample: on the 2-by-2 grid with boundary adjustment every
wrap edge coincides with an existing grid edge, so there are 4 edges,
not `2*2*2 = 8` as the claim asserts for all `rows, cols ≥ 1`. -/
theorem c3_rect_edge_counts_counterexample :
    (rect2d_to_pairwise_von_neumann_neighborhood 2 2 true).edgeCount = 4 ∧
    (rect2d_to_pairwise_von_neumann_neighborhood 2 2 true).edgeCount ≠ 2 * 2 * 2 := by
  decide

/-- C3 witness: the amended formulas evaluated on concrete grids. -/
theorem c3_rect_edge_counts_witness :
    (rect2d_to_pairwise_von_neumann_neighborhood 3 4 false).edgeCount
        = 3 * (4 - 1) + 4 * (3 - 1) ∧
    (rect2d_to_pairwise_von_neumann_neighborhood 3 3 true).edgeCount = 3 * 3 * 2 :=
  ⟨c3_rect_edge_counts.1 3 4 (by decide) (by decide),
   c3_rect_edge_counts.2 3 3 (by decide) (by decide)⟩

/-! ## The hexagonal generator -/

theorem hexInnerFold_inv (tlo k : Nat) (ht : 2 ≤ tlo) :
    ∀ (d : NDict) (i : Nat), DInv d (i+1) → tlo ≤ i →
      (hexInnerFold tlo k (d, i)).2 = i + k ∧
      DInv (hexInnerFold tlo k (d, i)).1 ((i + k) + 1) := by
  induction k with
  | zero =>
    intro d i hinv hti
    exact ⟨rfl, hinv⟩
  | succ k ih =>
    intro d i hinv hti
    have h1 : hexInnerFold tlo (k+1) (d, i) =
        hexInnerFold tlo k
          (((d.pairAdd i (i - tlo)).pairAdd i (i - tlo + 1)).linkNew i, i+1) := rfl
    have hinv1 : DInv (d.pairAdd i (i - tlo)) (i+1) :=
      hinv.pairAddD (by omega) (by omega) (by omega)
    have hinv2 : DInv ((d.pairAdd i (i - tlo)).pairAdd i (i - tlo + 1)) (i+1) :=
      hinv1.pairAddD (by omega) (by omega) (by omega)
    obtain ⟨hi, hinv3⟩ := ih _ (i+1) hinv2.linkNewD (by omega)
    have heq : (i+1) + k = i + (k+1) := by omega
    rw [heq] at hi hinv3
    exact ⟨by rw [h1]; exact hi, by rw [h1]; exact hinv3⟩

theorem hex2dRow_inv (cols : Nat) (hc : 1 ≤ cols) (modd : Bool) (d : NDict) (i : Nat)
    (hinv : DInv d (i+1)) (hcle : cols ≤ i + 1)
    (heven : modd = false → cols + 1 ≤ i + 1) :
    DInv (hex2dRow cols modd (d, i)).1 ((hex2dRow cols modd (d, i)).2 + 1) ∧
    i + cols ≤ (hex2dRow cols modd (d, i)).2 ∧
    (modd = true → (hex2dRow cols modd (d, i)).2 = i + cols) ∧
    (2 ≤ cols → (hex2dRow cols modd (d, i)).2 = i + cols) := by
  have hinv0 : DInv (d.set (i+1) ∅) ((i+1)+1) := hinv.setEmptyD
  cases modd
  · -- even row: leading top-right link and fresh right node, then the loop
    have hev : cols + 1 ≤ i + 1 := heven rfl
    have h1 : hex2dRow cols false (d, i) =
        ((hexInnerFold (cols+1) (cols - 1 - 1)
            (((d.set (i+1) ∅).pairAdd (i+1) ((i+1) - (cols+1) + 1)).linkNew (i+1),
              (i+1) + 1)).1.pairAdd
          (hexInnerFold (cols+1) (cols - 1 - 1)
            (((d.set (i+1) ∅).pairAdd (i+1) ((i+1) - (cols+1) + 1)).linkNew (i+1),
              (i+1) + 1)).2
          ((hexInnerFold (cols+1) (cols - 1 - 1)
            (((d.set (i+1) ∅).pairAdd (i+1) ((i+1) - (cols+1) + 1)).linkNew (i+1),
              (i+1) + 1)).2 - (cols+1)) |>.pairAdd
          (hexInnerFold (cols+1) (cols - 1 - 1)
            (((d.set (i+1) ∅).pairAdd (i+1) ((i+1) - (cols+1) + 1)).linkNew (i+1),
              (i+1) + 1)).2
          ((hexInnerFold (cols+1) (cols - 1 - 1)
            (((d.set (i+1) ∅).pairAdd (i+1) ((i+1) - (cols+1) + 1)).linkNew (i+1),
              (i+1) + 1)).2 - (cols+1) + 1),
         (hexInnerFold (cols+1) (cols - 1 - 1)
            (((d.set (i+1) ∅).pairAdd (i+1) ((i+1) - (cols+1) + 1)).linkNew (i+1),
              (i+1) + 1)).2) := rfl
    have hinvp : DInv ((d.set (i+1) ∅).pairAdd (i+1) ((i+1) - (cols+1) + 1)) ((i+1)+1) :=
      hinv0.pairAddD (by omega) (by omega) (by omega)
    obtain ⟨hi1, hinv1⟩ :=
      hexInnerFold_inv (cols+1) (cols - 1 - 1) (by omega)
        (((d.set (i+1) ∅).pairAdd (i+1) ((i+1) - (cols+1) + 1)).linkNew (i+1))
        ((i+1)+1) hinvp.linkNewD (by omega)
    have hi1v : (i+1) + 1 + (cols - 1 - 1) + 1 ≤ i + cols + 2 ∧
        i + cols ≤ (i+1) + 1 + (cols - 1 - 1) := by omega
    have htlo : cols + 1 ≤ (i+1) + 1 + (cols - 1 - 1) := by omega
    rw [h1]
    rw [hi1]
    refine ⟨?_, ?_, ?_, ?_⟩
    · exact (hinv1.pairAddD (by omega) (by omega) (by omega)).pairAddD (by omega) (by omega)
        (by omega)
    · omega
    · intro hcon
      exact absurd hcon (by decide)
    · intro hc2
      omega
  · -- odd row: the loop starts at the row's first node
    have h1 : hex2dRow cols true (d, i) =
        ((hexInnerFold cols (cols - 1) (d.set (i+1) ∅, i+1)).1.pairAdd
          (hexInnerFold cols (cols - 1) (d.set (i+1) ∅, i+1)).2
          ((hexInnerFold cols (cols - 1) (d.set (i+1) ∅, i+1)).2 - cols),
         (hexInnerFold cols (cols - 1) (d.set (i+1) ∅, i+1)).2) := rfl
    rcases eq_or_lt_of_le hc with hc1 | hc2
    · have hc1' : cols = 1 := hc1.symm
      subst hc1'
      have h0 : hexInnerFold 1 (1 - 1) (d.set (i+1) ∅, i+1) = (d.set (i+1) ∅, i+1) := rfl
      rw [h1, h0]
      refine ⟨?_, by omega, by intro _; rfl, by omega⟩
      exact hinv0.pairAddD (by omega) (by omega) (by omega)
    · obtain ⟨hi1, hinv1⟩ :=
        hexInnerFold_inv cols (cols - 1) (by omega) (d.set (i+1) ∅) (i+1) hinv0
          (by omega)
      have hiv : (i+1) + (cols - 1) = i + cols := by omega
      rw [hiv] at hi1 hinv1
      rw [h1, hi1]
      refine ⟨?_, by omega, by intro _; rfl, by intro _; rfl⟩
      exact hinv1.pairAddD (by omega) (by omega) (by omega)

theorem hexRowsFold_inv (cols : Nat) (hc : 1 ≤ cols) :
    ∀ (k m : Nat) (d : NDict) (i : Nat), 1 ≤ m → DInv d (i+1) → m * cols ≤ i + 1 →
      DInv (hexRowsFold cols k m (d, i)).1 ((hexRowsFold cols k m (d, i)).2 + 1) ∧
      (m + k) * cols ≤ (hexRowsFold cols k m (d, i)).2 + 1 ∧
      (2 ≤ cols → (hexRowsFold cols k m (d, i)).2 = i + k * cols) := by
  intro k
  induction k with
  | zero =>
    intro m d i hm hinv hmc
    refine ⟨hinv, ?_, ?_⟩
    · show (m + 0) * cols ≤ i + 1
      rw [Nat.add_zero]
      exact hmc
    · intro _
      show i = i + 0 * cols
      omega
  | succ k ih =>
    intro m d i hm hinv hmc
    have h1 : hexRowsFold cols (k+1) m (d, i) =
        hexRowsFold cols k (m+1) (hex2dRow cols (decide (m % 2 = 1)) (d, i)) := rfl
    have hccols : cols ≤ m * cols := by
      calc cols = 1 * cols := (Nat.one_mul cols).symm
      _ ≤ m * cols := Nat.mul_le_mul_right cols hm
    have heven : decide (m % 2 = 1) = false → cols + 1 ≤ i + 1 := by
      intro hdec
      have hm2 : m % 2 ≠ 1 := by
        intro hcon
        rw [hcon] at hdec
        exact absurd hdec (by decide)
      have hm2' : 2 ≤ m := by omega
      have : 2 * cols ≤ m * cols := Nat.mul_le_mul_right cols hm2'
      omega
    obtain ⟨hrinv, hrlo, _, hrex⟩ :=
      hex2dRow_inv cols hc (decide (m % 2 = 1)) d i hinv (by omega) heven
    have hsmul : (m+1) * cols = m * cols + cols := Nat.succ_mul m cols
    obtain ⟨hinv2, hbk, hex2⟩ :=
      ih (m+1) (hex2dRow cols (decide (m % 2 = 1)) (d, i)).1
        (hex2dRow cols (decide (m % 2 = 1)) (d, i)).2 (by omega) hrinv (by omega)
    have hbk' : (m + (k+1)) * cols = ((m+1) + k) * cols := by
      rw [show m + (k+1) = (m+1) + k from by omega]
    refine ⟨?_, ?_, ?_⟩
    · rw [h1]; exact hinv2
    · rw [h1, hbk']; exact hbk
    · intro hc2
      rw [h1, hex2 hc2, hrex hc2, Nat.succ_mul]
      omega

theorem hex_unfold (rows cols : Nat) (bd : Bool) :
    hex2d_to_pairwise_neighborhood rows cols bd =
      (if bd then
        (if rows % 2 ≠ 0 then Except.error PyErr.exn
         else Except.ok (PairwiseNeighborhood.ofNeighborhood (hexBd rows cols
           (hexRowsFold cols (rows - 1) 1
             (firstRowFold (cols - 1) (NDict.dempty.set 0 ∅, 0))).1)))
      else Except.ok (PairwiseNeighborhood.ofNeighborhood
        (hexRowsFold cols (rows - 1) 1
          (firstRowFold (cols - 1) (NDict.dempty.set 0 ∅, 0))).1)) := rfl

theorem hex_main_spec (rows cols : Nat) (hr : 1 ≤ rows) (hc : 1 ≤ cols) :
    DInv (hexRowsFold cols (rows - 1) 1
        (firstRowFold (cols - 1) (NDict.dempty.set 0 ∅, 0))).1
      ((hexRowsFold cols (rows - 1) 1
        (firstRowFold (cols - 1) (NDict.dempty.set 0 ∅, 0))).2 + 1) ∧
    rows * cols ≤ (hexRowsFold cols (rows - 1) 1
        (firstRowFold (cols - 1) (NDict.dempty.set 0 ∅, 0))).2 + 1 ∧
    (2 ≤ cols → (hexRowsFold cols (rows - 1) 1
        (firstRowFold (cols - 1) (NDict.dempty.set 0 ∅, 0))).2 + 1 = rows * cols) := by
  obtain ⟨hi0, hinv0, _, _⟩ :=
    firstRowFold_spec cols (cols - 1) (NDict.dempty.set 0 ∅) 0 DInv.emptySetD
      (EShape.emptySetE cols)
  have hpair0 : firstRowFold (cols - 1) (NDict.dempty.set 0 ∅, 0) =
      ((firstRowFold (cols - 1) (NDict.dempty.set 0 ∅, 0)).1, 0 + (cols - 1)) := by
    rw [← hi0]
  obtain ⟨hinv1, hlo1, hex1⟩ :=
    hexRowsFold_inv cols hc (rows - 1) 1
      (firstRowFold (cols - 1) (NDict.dempty.set 0 ∅, 0)).1 (0 + (cols - 1))
      le_rfl hinv0 (by rw [Nat.one_mul]; omega)
  rw [← hpair0] at hinv1 hlo1 hex1
  have hm : 1 + (rows - 1) = rows := by omega
  rw [hm] at hlo1
  refine ⟨hinv1, hlo1, ?_⟩
  intro hc2
  rw [hex1 hc2]
  obtain ⟨r1, rfl⟩ : ∃ r1, rows = r1 + 1 := ⟨rows - 1, by omega⟩
  obtain ⟨c1, rfl⟩ : ∃ c1, cols = c1 + 1 := ⟨cols - 1, by omega⟩
  simp only [Nat.add_sub_cancel]
  ring

theorem hexBd_unfold (rows cols : Nat) (d : NDict) :
    hexBd rows cols d =
      upTo (fun k d =>
        if (k+1) % 2 = 1 then
          (d.pairAdd ((k+1)*cols) ((k+1)*cols + (cols-1))).pairAdd
            ((k+1)*cols + (cols-1)) (((k+1)-1)*cols)
        else
          (d.pairAdd ((k+1)*cols) ((k+1)*cols + (cols-1))).pairAdd
            ((k+1)*cols) ((k+1)*cols - 1)) (rows - 1)
        ((upTo (fun i d =>
          (d.pairAdd i (if i = 0 then (rows-1)*cols + (cols-1)
                        else (rows-1)*cols + (i-1))).pairAdd
            i ((rows-1)*cols + i)) cols d).pairAdd 0 (cols - 1)) := rfl

theorem hexBd_SInv (rows cols : Nat) (hr : 1 ≤ rows) (hc : 1 ≤ cols) {t : Nat}
    (ht : rows * cols ≤ t) (d : NDict) (h : SInv d t) :
    SInv (hexBd rows cols d) t := by
  have e1 : (rows-1) * cols + cols = rows * cols := by
    obtain ⟨r1, rfl⟩ : ∃ r1, rows = r1 + 1 := ⟨rows - 1, by omega⟩
    simp only [Nat.add_sub_cancel]
    exact (Nat.succ_mul r1 cols).symm
  have hcle : cols ≤ rows * cols := by
    calc cols = 1 * cols := (Nat.one_mul cols).symm
    _ ≤ rows * cols := Nat.mul_le_mul_right cols hr
  rw [hexBd_unfold]
  refine upTo_preserve (fun d => SInv d t) _ (rows - 1) ?_ _
    ((upTo_preserve (fun d => SInv d t) _ cols ?_ d h).pairAddS (by omega) (by omega))
  · intro k hk dd hd
    have hkle : (k+1) * cols ≤ (rows-1) * cols := Nat.mul_le_mul_right cols (by omega)
    have hkle0 : k * cols ≤ (rows-1) * cols := Nat.mul_le_mul_right cols (by omega)
    by_cases hk2 : (k+1) % 2 = 1
    · rw [if_pos hk2]
      simp only [Nat.add_sub_cancel]
      exact (hd.pairAddS (by omega) (by omega)).pairAddS (by omega) (by omega)
    · rw [if_neg hk2]
      exact (hd.pairAddS (by omega) (by omega)).pairAddS (by omega) (by omega)
  · intro n hn dd hd
    have hite : (if n = 0 then (rows-1)*cols + (cols-1) else (rows-1)*cols + (n-1)) < t := by
      split <;> omega
    exact (hd.pairAddS (by omega) hite).pairAddS (by omega) (by omega)

theorem hexBd_DInv (rows cols : Nat) (hr : 2 ≤ rows) (hc : 2 ≤ cols) {t : Nat}
    (ht : rows * cols ≤ t) (d : NDict) (h : DInv d t) :
    DInv (hexBd rows cols d) t := by
  have e1 : (rows-1) * cols + cols = rows * cols := by
    obtain ⟨r1, rfl⟩ : ∃ r1, rows = r1 + 1 := ⟨rows - 1, by omega⟩
    simp only [Nat.add_sub_cancel]
    exact (Nat.succ_mul r1 cols).symm
  have hcle : cols ≤ (rows-1) * cols := by
    calc cols = 1 * cols := (Nat.one_mul cols).symm
    _ ≤ (rows-1) * cols := Nat.mul_le_mul_right cols (by omega)
  rw [hexBd_unfold]
  refine upTo_preserve (fun d => DInv d t) _ (rows - 1) ?_ _
    ((upTo_preserve (fun d => DInv d t) _ cols ?_ d h).pairAddD (by omega) (by omega)
      (by omega))
  · intro k hk dd hd
    have hkle : (k+1) * cols ≤ (rows-1) * cols := Nat.mul_le_mul_right cols (by omega)
    have hkle0 : k * cols ≤ (rows-1) * cols := Nat.mul_le_mul_right cols (by omega)
    have hsmul : (k+1) * cols = k * cols + cols := Nat.succ_mul k cols
    by_cases hk2 : (k+1) % 2 = 1
    · rw [if_pos hk2]
      simp only [Nat.add_sub_cancel]
      exact (hd.pairAddD (by omega) (by omega) (by omega)).pairAddD (by omega) (by omega)
        (by omega)
    · rw [if_neg hk2]
      exact (hd.pairAddD (by omega) (by omega) (by omega)).pairAddD (by omega) (by omega)
        (by omega)
  · intro n hn dd hd
    have hite : (if n = 0 then (rows-1)*cols + (cols-1) else (rows-1)*cols + (n-1)) < t
        ∧ n ≠ (if n = 0 then (rows-1)*cols + (cols-1) else (rows-1)*cols + (n-1)) := by
      split <;> constructor <;> omega
    exact (hd.pairAddD (by omega) hite.1 hite.2).pairAddD (by omega) (by omega) (by omega)

/-! ## Packaged generator facts -/

theorem mem_get_neighbors (g : PairwiseNeighborhood) (x y : Nat) :
    y ∈ g.get_neighbors x ↔
      x ∈ g.neighborhood.keys ∧ y ∈ g.neighborhood.val x := by
  unfold PairwiseNeighborhood.get_neighbors PyDict.get?
  by_cases hx : x ∈ g.neighborhood.keys
  · simp [hx]
  · simp [hx]

theorem linear_DInv (Np : Nat) (h1 : 1 ≤ Np) (bd : Bool) :
    DInv (linear_to_pairwise_neighborhood Np bd).neighborhood Np := by
  rcases eq_or_lt_of_le h1 with hNp1 | hNp2
  · have h : Np = 1 := hNp1.symm
    subst h
    unfold linear_to_pairwise_neighborhood
    rw [if_pos rfl]
    exact DInv.emptySetD
  · rw [linear_eq_of_ge_two (by omega) bd]
    obtain ⟨_, hinv, _, _⟩ := linear_chain_spec Np (by omega)
    cases bd
    · exact hinv
    · exact hinv.pairAddD (by omega) (by omega) (by omega)

theorem rect_DInv_false (rows cols : Nat) (hr : 1 ≤ rows) (hc : 1 ≤ cols) :
    DInv (rect2d_to_pairwise_von_neumann_neighborhood rows cols false).neighborhood
      (rows * cols) := by
  obtain ⟨_, hinv, _, _⟩ := rect_main_spec rows cols hr hc
  rw [rect_unfold]
  exact hinv

theorem rect_DInv_true (rows cols : Nat) (hr : 2 ≤ rows) (hc : 2 ≤ cols) :
    DInv (rect2d_to_pairwise_von_neumann_neighborhood rows cols true).neighborhood
      (rows * cols) := by
  obtain ⟨_, hinv, _, _⟩ := rect_main_spec rows cols (by omega) (by omega)
  rw [rect_unfold]
  exact rectBd_DInv rows cols hr hc _ hinv

theorem hex_unfold_false (rows cols : Nat) :
    hex2d_to_pairwise_neighborhood rows cols false =
      Except.ok (PairwiseNeighborhood.ofNeighborhood
        (hexRowsFold cols (rows - 1) 1
          (firstRowFold (cols - 1) (NDict.dempty.set 0 ∅, 0))).1) := rfl

theorem hex_unfold_true (rows cols : Nat) :
    hex2d_to_pairwise_neighborhood rows cols true =
      (if rows % 2 ≠ 0 then Except.error PyErr.exn
       else Except.ok (PairwiseNeighborhood.ofNeighborhood (hexBd rows cols
         (hexRowsFold cols (rows - 1) 1
           (firstRowFold (cols - 1) (NDict.dempty.set 0 ∅, 0))).1))) := rfl

theorem hexBd_keys (rows cols : Nat) (d : NDict) :
    (hexBd rows cols d).keys = d.keys := by
  rw [hexBd_unfold]
  have h3 := upTo_keys
    (fun k d =>
      if (k+1) % 2 = 1 then
        (d.pairAdd ((k+1)*cols) ((k+1)*cols + (cols-1))).pairAdd
          ((k+1)*cols + (cols-1)) (((k+1)-1)*cols)
      else
        (d.pairAdd ((k+1)*cols) ((k+1)*cols + (cols-1))).pairAdd
          ((k+1)*cols) ((k+1)*cols - 1))
    (fun k d => by
      show (if (k+1) % 2 = 1 then
          (d.pairAdd ((k+1)*cols) ((k+1)*cols + (cols-1))).pairAdd
            ((k+1)*cols + (cols-1)) (((k+1)-1)*cols)
        else
          (d.pairAdd ((k+1)*cols) ((k+1)*cols + (cols-1))).pairAdd
            ((k+1)*cols) ((k+1)*cols - 1)).keys = d.keys
      split <;> rfl) (rows - 1)
  have h1 := upTo_keys
    (fun i d =>
      (d.pairAdd i (if i = 0 then (rows-1)*cols + (cols-1)
                    else (rows-1)*cols + (i-1))).pairAdd
        i ((rows-1)*cols + i))
    (fun n d => rfl) cols
  rw [h3, PyDict.pairAdd_keys, h1]

theorem hex_true_ok_elim {rows cols : Nat} {g : PairwiseNeighborhood}
    (hok : hex2d_to_pairwise_neighborhood rows cols true = Except.ok g) :
    rows % 2 = 0 ∧
    g = PairwiseNeighborhood.ofNeighborhood (hexBd rows cols
      (hexRowsFold cols (rows - 1) 1
        (firstRowFold (cols - 1) (NDict.dempty.set 0 ∅, 0))).1) := by
  rw [hex_unfold_true] at hok
  by_cases hpar : rows % 2 ≠ 0
  · rw [if_pos hpar] at hok
    exact absurd hok (by intro h; cases h)
  · rw [if_neg hpar] at hok
    injection hok with hg
    exact ⟨by omega, hg.symm⟩

theorem hex_false_ok_elim {rows cols : Nat} {g : PairwiseNeighborhood}
    (hok : hex2d_to_pairwise_neighborhood rows cols false = Except.ok g) :
    g = PairwiseNeighborhood.ofNeighborhood
      (hexRowsFold cols (rows - 1) 1
        (firstRowFold (cols - 1) (NDict.dempty.set 0 ∅, 0))).1 := by
  rw [hex_unfold_false] at hok
  injection hok with hg
  exact hg.symm

theorem hex_loop_keys (rows cols : Nat) (hr : 1 ≤ rows) (hc : 1 ≤ cols)
    (hcr : 2 ≤ cols ∨ rows ≤ 2) :
    (hexRowsFold cols (rows - 1) 1
      (firstRowFold (cols - 1) (NDict.dempty.set 0 ∅, 0))).1.keys
        = Finset.range (rows * cols) := by
  obtain ⟨hinv, _, hexact⟩ := hex_main_spec rows cols hr hc
  rcases hcr with hc2 | hrow2
  · rw [hinv.keys_eq, hexact hc2]
  · obtain ⟨hi0, hinv0, _, _⟩ :=
      firstRowFold_spec cols (cols - 1) (NDict.dempty.set 0 ∅) 0 DInv.emptySetD
        (EShape.emptySetE cols)
    have hpair0 : firstRowFold (cols - 1) (NDict.dempty.set 0 ∅, 0) =
        ((firstRowFold (cols - 1) (NDict.dempty.set 0 ∅, 0)).1, 0 + (cols - 1)) := by
      rw [← hi0]
    rcases (show rows = 1 ∨ rows = 2 from by omega) with hrows | hrows
    · subst hrows
      have h0 : hexRowsFold cols (1 - 1) 1
          (firstRowFold (cols - 1) (NDict.dempty.set 0 ∅, 0)) =
          firstRowFold (cols - 1) (NDict.dempty.set 0 ∅, 0) := rfl
      rw [h0, hinv0.keys_eq]
      congr 1
      omega
    · subst hrows
      have h0 : hexRowsFold cols (2 - 1) 1
          (firstRowFold (cols - 1) (NDict.dempty.set 0 ∅, 0)) =
          hex2dRow cols true (firstRowFold (cols - 1) (NDict.dempty.set 0 ∅, 0)) := rfl
      obtain ⟨hrinv, _, hrodd, _⟩ :=
        hex2dRow_inv cols hc true
          (firstRowFold (cols - 1) (NDict.dempty.set 0 ∅, 0)).1 (0 + (cols - 1))
          hinv0 (by omega) (by intro hcon; exact absurd hcon (by decide))
      rw [← hpair0] at hrinv hrodd
      rw [h0, hrinv.keys_eq, hrodd rfl]
      congr 1
      omega

/-- C7 claim theorem: with the boundary flag, an odd row count always
raises, and an even row count passes the parity check (and, the
construction being total, returns a graph). -/
theorem c7_hex_parity_gate :
    (∀ rows cols : Nat, rows % 2 = 1 →
      hex2d_to_pairwise_neighborhood rows cols true = Except.error PyErr.exn) ∧
    (∀ rows cols : Nat, 1 ≤ rows → rows % 2 = 0 →
      ∃ g, hex2d_to_pairwise_neighborhood rows cols true = Except.ok g) := by
  constructor
  · intro rows cols hodd
    rw [hex_unfold_true, if_pos (by omega)]
  · intro rows cols _ heven
    exact ⟨_, by rw [hex_unfold_true, if_neg (by omega)]⟩

/-- C7 witness: parity failure at `rows = 3` and success at `rows = 4`. -/
theorem c7_hex_parity_gate_witness :
    hex2d_to_pairwise_neighborhood 3 4 true = Except.error PyErr.exn ∧
    ∃ g, hex2d_to_pairwise_neighborhood 4 4 true = Except.ok g :=
  ⟨c7_hex_parity_gate.1 3 4 (by decide),
   c7_hex_parity_gate.2 4 4 (by decide) (by decide)⟩

/-- C4 claim theorem (amended): both grid generators assign node ids
`0..rows*cols-1`; for the hexagonal generator this requires `cols ≥ 2`
(or `rows ≤ 2`), since even-indexed hexagonal rows with `cols = 1`
spill an extra node past the row's end. -/
theorem c4_row_major_node_sets :
    (∀ (rows cols : Nat) (bd : Bool), 1 ≤ rows → 1 ≤ cols →
      (rect2d_to_pairwise_von_neumann_neighborhood rows cols bd).neighborhood.keys
        = Finset.range (rows * cols)) ∧
    (∀ (rows cols : Nat) (bd : Bool) (g : PairwiseNeighborhood),
      1 ≤ rows → 1 ≤ cols → (2 ≤ cols ∨ rows ≤ 2) →
      hex2d_to_pairwise_neighborhood rows cols bd = Except.ok g →
      g.neighborhood.keys = Finset.range (rows * cols)) := by
  refine ⟨fun rows cols bd hr hc => rect_keys rows cols hr hc bd, ?_⟩
  intro rows cols bd g hr hc hcr hok
  cases bd
  · rw [hex_false_ok_elim hok]
    exact hex_loop_keys rows cols hr hc hcr
  · obtain ⟨_, hg⟩ := hex_true_ok_elim hok
    rw [hg]
    show (hexBd rows cols _).keys = _
    rw [hexBd_keys]
    exact hex_loop_keys rows cols hr hc hcr

/-- C4 counterexample: `hex2d(rows=3, cols=1)` returns a graph whose node
set is `{0, 1, 2, 3}`, not `{0, 1, 2} = range (3*1)` as the claim
asserts for all valid dimensions. -/
theorem c4_row_major_node_sets_counterexample :
    hex2d_to_pairwise_neighborhood 3 1 false =
      Except.ok (PairwiseNeighborhood.ofNeighborhood
        (hexRowsFold 1 (3 - 1) 1 (firstRowFold (1 - 1) (NDict.dempty.set 0 ∅, 0))).1) ∧
    (hexRowsFold 1 (3 - 1) 1 (firstRowFold (1 - 1) (NDict.dempty.set 0 ∅, 0))).1.keys
      = ({0, 1, 2, 3} : Finset Nat) ∧
    (hexRowsFold 1 (3 - 1) 1 (firstRowFold (1 - 1) (NDict.dempty.set 0 ∅, 0))).1.keys
      ≠ Finset.range (3 * 1) :=
  ⟨rfl, by decide, by decide⟩

/-- C4 witness: node sets of concrete grids. -/
theorem c4_row_major_node_sets_witness :
    (rect2d_to_pairwise_von_neumann_neighborhood 2 3 false).neighborhood.keys
      = Finset.range (2 * 3) ∧
    (PairwiseNeighborhood.ofNeighborhood
      (hexRowsFold 4 (4 - 1) 1
        (firstRowFold (4 - 1) (NDict.dempty.set 0 ∅, 0))).1).neighborhood.keys
      = Finset.range (4 * 4) :=
  ⟨c4_row_major_node_sets.1 2 3 false (by decide) (by decide),
   c4_row_major_node_sets.2 4 4 false _ (by decide) (by decide) (Or.inl (by decide)) rfl⟩

theorem DInv.no_self_neighbors {g : PairwiseNeighborhood} {t : Nat}
    (h : DInv g.neighborhood t) : ∀ a, a ∉ g.get_neighbors a := by
  intro a ha
  rw [mem_get_neighbors] at ha
  exact h.noself a ha.2

/-- C5 claim theorem (amended): no generator produces a self-loop,
except that with boundary adjustment the degenerate wraps do: the
rectangular generator needs `rows, cols ≥ 2` and the hexagonal generator
needs `cols ≥ 2` (a 1-wide row wraps onto itself). -/
theorem c5_no_generator_self_loops :
    (∀ (Np : Nat) (bd : Bool), 1 ≤ Np → ∀ a,
      a ∉ (linear_to_pairwise_neighborhood Np bd).get_neighbors a) ∧
    (∀ rows cols : Nat, 1 ≤ rows → 1 ≤ cols → ∀ a,
      a ∉ (rect2d_to_pairwise_von_neumann_neighborhood rows cols false).get_neighbors a) ∧
    (∀ rows cols : Nat, 2 ≤ rows → 2 ≤ cols → ∀ a,
      a ∉ (rect2d_to_pairwise_von_neumann_neighborhood rows cols true).get_neighbors a) ∧
    (∀ (rows cols : Nat) (g : PairwiseNeighborhood), 1 ≤ rows → 1 ≤ cols →
      hex2d_to_pairwise_neighborhood rows cols false = Except.ok g → ∀ a,
      a ∉ g.get_neighbors a) ∧
    (∀ (rows cols : Nat) (g : PairwiseNeighborhood), 1 ≤ rows → 2 ≤ cols →
      hex2d_to_pairwise_neighborhood rows cols true = Except.ok g → ∀ a,
      a ∉ g.get_neighbors a) := by
  refine ⟨?_, ?_, ?_, ?_, ?_⟩
  · intro Np bd h1
    exact (linear_DInv Np h1 bd).no_self_neighbors
  · intro rows cols hr hc
    exact (rect_DInv_false rows cols hr hc).no_self_neighbors
  · intro rows cols hr hc
    exact (rect_DInv_true rows cols hr hc).no_self_neighbors
  · intro rows cols g hr hc hok
    obtain ⟨hinv, _, _⟩ := hex_main_spec rows cols hr hc
    rw [hex_false_ok_elim hok]
    exact DInv.no_self_neighbors (g := PairwiseNeighborhood.ofNeighborhood _) hinv
  · intro rows cols g hr hc2 hok
    obtain ⟨hpar, hg⟩ := hex_true_ok_elim hok
    obtain ⟨hinv, hge, _⟩ := hex_main_spec rows cols hr (by omega)
    rw [hg]
    exact DInv.no_self_neighbors (g := PairwiseNeighborhood.ofNeighborhood _)
      (hexBd_DInv rows cols (by omega) hc2 hge _ hinv)

/-- C5 counterexample: the 1-by-1 rectangular grid with boundary
adjustment wraps node 0 onto itself, a self-loop. -/
theorem c5_no_generator_self_loops_counterexample :
    0 ∈ (rect2d_to_pairwise_von_neumann_neighborhood 1 1 true).get_neighbors 0 := by
  decide

/-- C5 witness: no self-loop at node 0 in concrete graphs. -/
theorem c5_no_generator_self_loops_witness :
    0 ∉ (linear_to_pairwise_neighborhood 5 true).get_neighbors 0 ∧
    0 ∉ (rect2d_to_pairwise_von_neumann_neighborhood 2 2 false).get_neighbors 0 ∧
    0 ∉ (rect2d_to_pairwise_von_neumann_neighborhood 3 3 true).get_neighbors 0 :=
  ⟨c5_no_generator_self_loops.1 5 true (by decide) 0,
   c5_no_generator_self_loops.2.1 2 2 (by decide) (by decide) 0,
   c5_no_generator_self_loops.2.2.1 3 3 (by decide) (by decide) 0⟩

/-- C6 claim theorem: the three unimplemented generators return
normally - the value is a `NotImplementedError` *instance*, produced by
`return NotImplementedError()`, not a raised exception.  This exhibits
the divergence from the claimed behavior (the spec requires these calls
to fail). -/
theorem c6_unimplemented_generators_return :
    (∀ (rows cols : Nat) (bd : Bool),
      rect2d_to_pairwise_moore_neighborhood rows cols bd
        = Except.ok PyObject.notImplementedErrorObj) ∧
    (∀ (Np : Nat) (bd : Bool),
      rect3d_to_pairwise_neighborhood Np bd
        = Except.ok PyObject.notImplementedErrorObj) ∧
    (∀ (Np : Nat) (bd : Bool),
      hex3d_to_pairwise_neighborhood Np bd
        = Except.ok PyObject.notImplementedErrorObj) :=
  ⟨fun _ _ _ => rfl, fun _ _ => rfl, fun _ _ => rfl⟩

/-- C9 counterexample: in `hex2d(4, 4)` without wrap, node 5's neighbor
set also contains its bottom-row neighbors 9 and 10, so it is not
exactly `{1, 2, 4, 6}`. -/
theorem c9_hex_offset_counterexample :
    hex2d_to_pairwise_neighborhood 4 4 false =
      Except.ok (PairwiseNeighborhood.ofNeighborhood
        (hexRowsFold 4 (4 - 1) 1 (firstRowFold (4 - 1) (NDict.dempty.set 0 ∅, 0))).1) ∧
    9 ∈ (PairwiseNeighborhood.ofNeighborhood
        (hexRowsFold 4 (4 - 1) 1
          (firstRowFold (4 - 1) (NDict.dempty.set 0 ∅, 0))).1).get_neighbors 5 ∧
    (PairwiseNeighborhood.ofNeighborhood
        (hexRowsFold 4 (4 - 1) 1
          (firstRowFold (4 - 1) (NDict.dempty.set 0 ∅, 0))).1).get_neighbors 5
      ≠ ({1, 2, 4, 6} : Finset Nat) :=
  ⟨rfl, by decide, by decide⟩

/-- C9 claim theorem (amended): node 5 of `hex2d(4, 4)` without wrap has
top-left neighbor 1, top-right neighbor 2, left neighbor 4 and right
neighbor 6 - together with the reciprocal bottom-right 9 and bottom-left
10 contributed by row 2, its full neighbor set is `{1, 2, 4, 6, 9, 10}`. -/
theorem c9_hex_offset_scenario :
    hex2d_to_pairwise_neighborhood 4 4 false =
      Except.ok (PairwiseNeighborhood.ofNeighborhood
        (hexRowsFold 4 (4 - 1) 1 (firstRowFold (4 - 1) (NDict.dempty.set 0 ∅, 0))).1) ∧
    (PairwiseNeighborhood.ofNeighborhood
        (hexRowsFold 4 (4 - 1) 1
          (firstRowFold (4 - 1) (NDict.dempty.set 0 ∅, 0))).1).get_neighbors 5
      = ({1, 2, 4, 6, 9, 10} : Finset Nat) :=
  ⟨rfl, by decide⟩

/-- C8 claim theorem (amended): the linear generator has nodes `0..N-1`;
`N-1` edges without boundary adjustment; `N` edges with it for `N ≥ 3`
(for `N = 2` the wrap edge already exists, see the counterexample);
0 edges for `N = 1` regardless of the flag; and the `N = 5` ring matches
the claimed adjacency. -/
theorem c8_linear_generator :
    (∀ (Np : Nat) (bd : Bool), 1 ≤ Np →
      (linear_to_pairwise_neighborhood Np bd).neighborhood.keys = Finset.range Np) ∧
    (∀ Np : Nat, 1 ≤ Np →
      (linear_to_pairwise_neighborhood Np false).edgeCount = Np - 1) ∧
    (∀ Np : Nat, 3 ≤ Np →
      (linear_to_pairwise_neighborhood Np true).edgeCount = Np) ∧
    (∀ bd : Bool, (linear_to_pairwise_neighborhood 1 bd).edgeCount = 0) ∧
    ((linear_to_pairwise_neighborhood 5 true).get_neighbors 0 = {1, 4} ∧
     (linear_to_pairwise_neighborhood 5 true).get_neighbors 1 = {0, 2} ∧
     (linear_to_pairwise_neighborhood 5 true).get_neighbors 2 = {1, 3} ∧
     (linear_to_pairwise_neighborhood 5 true).get_neighbors 3 = {2, 4} ∧
     (linear_to_pairwise_neighborhood 5 true).get_neighbors 4 = {3, 0}) := by
  refine ⟨?_, ?_, ?_, ?_, ?_, ?_, ?_, ?_⟩
  · intro Np bd h1
    have h := (linear_DInv Np h1 bd).keys_eq
    exact h
  · intro Np h1
    rcases eq_or_lt_of_le h1 with hNp1 | hNp2
    · have h : Np = 1 := hNp1.symm
      subst h
      decide
    · rw [linear_eq_of_ge_two (by omega) false]
      obtain ⟨_, _, hcount, _⟩ := linear_chain_spec Np (by omega)
      exact hcount
  · intro Np h3
    rw [linear_eq_of_ge_two (by omega) true]
    obtain ⟨_, hinv, hcount, hsh⟩ := linear_chain_spec Np (by omega)
    have hfresh : Np - 1 ∉ (firstRowFold (Np-1) (NDict.dempty.set 0 ∅, 0)).1.val 0 := by
      intro hmem
      have := hsh 0 (Np - 1) hmem
      omega
    show ((firstRowFold (Np-1) (NDict.dempty.set 0 ∅, 0)).1.pairAdd 0 (Np-1)).edgeCount = Np
    rw [edgeCount_pairAdd hinv (by omega) (by omega) (by omega) hfresh, hcount]
    omega
  · intro bd
    cases bd <;> decide
  · decide
  · decide
  · decide
  · decide

/-- C8 counterexample: for `N = 2` with boundary adjustment the wrap
edge `(0, 1)` coincides with the existing path edge, so there is 1 edge,
not the claimed `N = 2`. -/
theorem c8_linear_generator_counterexample :
    (linear_to_pairwise_neighborhood 2 true).edgeCount = 1 ∧
    (linear_to_pairwise_neighborhood 2 true).edgeCount ≠ 2 := by
  decide

/-- C8 witness: the amended counts at `N = 4`. -/
theorem c8_linear_generator_witness :
    (linear_to_pairwise_neighborhood 4 false).neighborhood.keys = Finset.range 4 ∧
    (linear_to_pairwise_neighborhood 4 false).edgeCount = 4 - 1 ∧
    (linear_to_pairwise_neighborhood 4 true).edgeCount = 4 ∧
    (linear_to_pairwise_neighborhood 1 true).edgeCount = 0 :=
  ⟨c8_linear_generator.1 4 false (by decide), c8_linear_generator.2.1 4 (by decide),
   c8_linear_generator.2.2.1 4 (by decide), c8_linear_generator.2.2.2.1 true⟩

/-! ## The graph-level invariant and the mutation operations -/

/-- The structural invariant of a live adjacency dict: every recorded
neighbor of a present node is itself present, and adjacency is mirrored
between present nodes. -/
def DOK (d : NDict) : Prop :=
  (∀ a, a ∈ d.keys → ∀ b, b ∈ d.val a → b ∈ d.keys) ∧
  (∀ a b, a ∈ d.keys → b ∈ d.keys → (b ∈ d.val a ↔ a ∈ d.val b))

/-- The same invariant on a whole graph. -/
def GraphOK (g : PairwiseNeighborhood) : Prop := DOK g.neighborhood

theorem GraphOK.nbrs_symm {g : PairwiseNeighborhood} (h : GraphOK g) :
    ∀ a b, b ∈ g.get_neighbors a ↔ a ∈ g.get_neighbors b := by
  intro a b
  rw [mem_get_neighbors, mem_get_neighbors]
  constructor
  · rintro ⟨ha, hab⟩
    have hb := h.1 a ha b hab
    exact ⟨hb, (h.2 a b ha hb).mp hab⟩
  · rintro ⟨hb, hba⟩
    have ha := h.1 b hb a hba
    exact ⟨ha, (h.2 a b ha hb).mpr hba⟩

theorem SInv.graphOK {g : PairwiseNeighborhood} {t : Nat}
    (h : SInv g.neighborhood t) : GraphOK g := by
  constructor
  · intro a _ b hab
    rw [h.keys_eq, Finset.mem_range]
    exact (h.bound a b hab).2
  · intro a b _ _
    exact h.symm a b

theorem GraphOK.emptyPN :
    GraphOK ⟨NDict.dempty, MDict.dempty, IMDict.dempty⟩ := by
  constructor
  · intro a ha
    exact absurd ha (Finset.not_mem_empty a)
  · intro a b ha
    exact absurd ha (Finset.not_mem_empty a)

theorem add_node_ok_elim {g g' : PairwiseNeighborhood} {nid : Nat} {meta : PyVal}
    (hok : g.add_node nid meta = Except.ok g') :
    nid ∉ g.neighborhood.keys ∧
    g'.neighborhood = g.neighborhood.set nid ∅ ∧
    g'.node_metadata =
      (if meta.truthy then g.node_metadata.set nid meta else g.node_metadata) ∧
    g'.interaction_metadata = g.interaction_metadata := by
  unfold PairwiseNeighborhood.add_node at hok
  by_cases h : nid ∈ g.neighborhood.keys
  · rw [if_pos h] at hok
    exact absurd hok (by intro hc; cases hc)
  · rw [if_neg h] at hok
    injection hok with hg
    exact ⟨h, by rw [← hg], by rw [← hg], by rw [← hg]⟩

theorem add_node_metadata_ok_elim {g g' : PairwiseNeighborhood} {nid : Nat}
    {meta : PyVal} (hok : g.add_node_metadata nid meta = Except.ok g') :
    nid ∈ g.neighborhood.keys ∧
    g'.neighborhood = g.neighborhood ∧
    g'.node_metadata = g.node_metadata.set nid meta := by
  unfold PairwiseNeighborhood.add_node_metadata at hok
  by_cases h : nid ∈ g.neighborhood.keys
  · rw [if_neg (by intro hc; exact hc h)] at hok
    injection hok with hg
    exact ⟨h, by rw [← hg], by rw [← hg]⟩
  · rw [if_pos h] at hok
    exact absurd hok (by intro hc; cases hc)

theorem add_interaction_metadata_ok_elim {g g' : PairwiseNeighborhood}
    {nid1 nid2 : Nat} {meta : PyVal}
    (hok : g.add_interaction_metadata nid1 nid2 meta = Except.ok g') :
    nid1 ∈ g.neighborhood.keys ∧ nid2 ∈ g.neighborhood.keys ∧
    g'.neighborhood = g.neighborhood ∧
    g'.interaction_metadata =
      (g.interaction_metadata.set (nid1, nid2) meta).set (nid2, nid1) meta := by
  unfold PairwiseNeighborhood.add_interaction_metadata at hok
  by_cases h1 : nid1 ∈ g.neighborhood.keys
  · rw [if_neg (by intro hc; exact hc h1)] at hok
    by_cases h2 : nid2 ∈ g.neighborhood.keys
    · rw [if_neg (by intro hc; exact hc h2)] at hok
      injection hok with hg
      exact ⟨h1, h2, by rw [← hg], by rw [← hg]⟩
    · rw [if_pos h2] at hok
      exact absurd hok (by intro hc; cases hc)
  · rw [if_pos h1] at hok
    exact absurd hok (by intro hc; cases hc)

theorem remove_interaction_ok_elim {g g' : PairwiseNeighborhood} {nid1 nid2 : Nat}
    (hok : g.remove_interaction nid1 nid2 = Except.ok g') :
    nid1 ∈ g.neighborhood.keys ∧ nid2 ∈ g.neighborhood.keys ∧
    nid2 ∈ g.neighborhood.val nid1 ∧ nid1 ∈ g.neighborhood.val nid2 ∧
    g'.neighborhood = (g.neighborhood.setRemove nid1 nid2).setRemove nid2 nid1 ∧
    g'.node_metadata = g.node_metadata ∧
    g'.interaction_metadata =
      (g.interaction_metadata.del (nid1, nid2)).del (nid2, nid1) := by
  unfold PairwiseNeighborhood.remove_interaction at hok
  by_cases h1 : nid1 ∈ g.neighborhood.keys
  · rw [if_neg (by intro hc; exact hc h1)] at hok
    by_cases h2 : nid2 ∈ g.neighborhood.keys
    · rw [if_neg (by intro hc; exact hc h2)] at hok
      by_cases h3 : nid2 ∈ g.neighborhood.val nid1
      · rw [if_neg (by intro hc; exact hc h3)] at hok
        by_cases h4 : nid1 ∈ g.neighborhood.val nid2
        · rw [if_neg (by intro hc; exact hc h4)] at hok
          injection hok with hg
          exact ⟨h1, h2, h3, h4, by rw [← hg], by rw [← hg], by rw [← hg]⟩
        · rw [if_pos h4] at hok
          exact absurd hok (by intro hc; cases hc)
      · rw [if_pos h3] at hok
        exact absurd hok (by intro hc; cases hc)
    · rw [if_pos h2] at hok
      exact absurd hok (by intro hc; cases hc)
  · rw [if_pos h1] at hok
    exact absurd hok (by intro hc; cases hc)

theorem remove_node_ok_elim {g g' : PairwiseNeighborhood} {nid : Nat}
    (hok : g.remove_node nid = Except.ok g') :
    nid ∈ g.neighborhood.keys ∧
    g'.neighborhood.keys = g.neighborhood.keys.erase nid ∧
    g'.neighborhood.val = (fun x =>
      if x ∈ g.neighborhood.val nid then (g.neighborhood.val x).erase nid
      else g.neighborhood.val x) ∧
    g'.node_metadata = g.node_metadata.del nid ∧
    g'.interaction_metadata.keys = g.interaction_metadata.keys.filter
      (fun p => ¬((p.1 = nid ∧ p.2 ∈ g.neighborhood.val nid) ∨
                  (p.2 = nid ∧ p.1 ∈ g.neighborhood.val nid))) := by
  unfold PairwiseNeighborhood.remove_node at hok
  by_cases h : nid ∈ g.neighborhood.keys
  · rw [if_neg (by intro hc; exact hc h)] at hok
    injection hok with hg
    exact ⟨h, by rw [← hg], by rw [← hg], by rw [← hg], by rw [← hg]⟩
  · rw [if_pos h] at hok
    exact absurd hok (by intro hc; cases hc)

theorem PyDict.setRemove_keys (d : NDict) (k x : Nat) :
    (d.setRemove k x).keys = d.keys := rfl

theorem PyDict.mem_setRemove2_val (d : NDict) (n1 n2 x y : Nat) :
    y ∈ ((d.setRemove n1 n2).setRemove n2 n1).val x ↔
      (y ∈ d.val x ∧ ¬(x = n1 ∧ y = n2) ∧ ¬(x = n2 ∧ y = n1)) := by
  rw [PyDict.mem_setRemove_val, PyDict.mem_setRemove_val]
  tauto

theorem DOK.set_fresh {d : NDict} {k : Nat} (h : DOK d) (hk : k ∉ d.keys) :
    DOK (d.set k ∅) := by
  constructor
  · intro a ha b hab
    rw [PyDict.setGen_keys, Finset.mem_insert] at ha ⊢
    rw [PyDict.mem_set_val] at hab
    rcases hab with ⟨_, hb⟩ | ⟨hne, hb⟩
    · exact absurd hb (Finset.not_mem_empty b)
    · rcases ha with ha | ha
      · exact absurd ha hne
      · exact Or.inr (h.1 a ha b hb)
  · intro a b ha hb
    rw [PyDict.setGen_keys, Finset.mem_insert] at ha hb
    rw [PyDict.mem_set_val, PyDict.mem_set_val]
    have hclo : ∀ x y, x ∈ d.keys → y ∈ d.val x → y ≠ k :=
      fun x y hx hy hc => hk (hc ▸ h.1 x hx y hy)
    rcases ha with ha | ha
    · subst ha
      constructor
      · rintro (⟨_, hc⟩ | ⟨hne, _⟩)
        · exact absurd hc (Finset.not_mem_empty b)
        · exact absurd rfl hne
      · rintro (⟨_, hc⟩ | ⟨hbne, hcb⟩)
        · exact absurd hc (Finset.not_mem_empty a)
        · rcases hb with hb | hb
          · exact absurd hb hbne
          · exact absurd rfl (hclo b a hb hcb)
    · rcases hb with hb | hb
      · subst hb
        constructor
        · rintro (⟨hc, _⟩ | ⟨hane, hca⟩)
          · exact absurd (hc ▸ ha) hk
          · exact absurd rfl (hclo a b ha hca)
        · rintro (⟨_, hc⟩ | ⟨hbne, _⟩)
          · exact absurd hc (Finset.not_mem_empty a)
          · exact absurd rfl hbne
      · have hane : a ≠ k := fun hc => hk (hc ▸ ha)
        have hbne : b ≠ k := fun hc => hk (hc ▸ hb)
        have hold := h.2 a b ha hb
        tauto

theorem DOK.pairAdd_mem {d : NDict} {a b : Nat} (h : DOK d)
    (ha : a ∈ d.keys) (hb : b ∈ d.keys) : DOK (d.pairAdd a b) := by
  constructor
  · intro x hx y hxy
    rw [PyDict.pairAdd_keys] at hx ⊢
    rw [PyDict.mem_pairAdd_val] at hxy
    rcases hxy with hxy | ⟨_, hy⟩ | ⟨_, hy⟩
    · exact h.1 x hx y hxy
    · exact hy ▸ hb
    · exact hy ▸ ha
  · intro x y hx hy
    rw [PyDict.pairAdd_keys] at hx hy
    rw [PyDict.mem_pairAdd_val, PyDict.mem_pairAdd_val]
    have hold := h.2 x y hx hy
    tauto

theorem add_interaction_neighborhood (g : PairwiseNeighborhood) (n1 n2 : Nat)
    (meta : PyVal) :
    (g.add_interaction n1 n2 meta).neighborhood =
      (if n2 ∈ (if n1 ∈ g.neighborhood.keys then g.neighborhood
                 else g.neighborhood.set n1 ∅).keys
       then (if n1 ∈ g.neighborhood.keys then g.neighborhood
             else g.neighborhood.set n1 ∅)
       else (if n1 ∈ g.neighborhood.keys then g.neighborhood
             else g.neighborhood.set n1 ∅).set n2 ∅).pairAdd n1 n2 := by
  by_cases h1 : n1 ∈ g.neighborhood.keys
  · by_cases h2 : n2 ∈ g.neighborhood.keys
    · simp [PairwiseNeighborhood.add_interaction, h1, h2]
    · simp [PairwiseNeighborhood.add_interaction, h1, h2]
  · by_cases h2 : n2 ∈ (g.neighborhood.set n1 ∅).keys
    · simp [PairwiseNeighborhood.add_interaction, h1, h2]
    · simp [PairwiseNeighborhood.add_interaction, h1, h2]

theorem add_interaction_im (g : PairwiseNeighborhood) (n1 n2 : Nat)
    (meta : PyVal) :
    (g.add_interaction n1 n2 meta).interaction_metadata =
      (if meta.truthy then
        (g.interaction_metadata.set (n1, n2) meta).set (n2, n1) meta
       else g.interaction_metadata) := by
  by_cases h1 : n1 ∈ g.neighborhood.keys
  · by_cases h2 : n2 ∈ g.neighborhood.keys
    · simp [PairwiseNeighborhood.add_interaction, h1, h2]
    · simp [PairwiseNeighborhood.add_interaction, h1, h2]
  · by_cases h2 : n2 ∈ (g.neighborhood.set n1 ∅).keys
    · simp [PairwiseNeighborhood.add_interaction, h1, h2]
    · simp [PairwiseNeighborhood.add_interaction, h1, h2]

theorem GraphOK.add_node_pres {g g' : PairwiseNeighborhood} {nid : Nat}
    {meta : PyVal} (h : GraphOK g) (hok : g.add_node nid meta = Except.ok g') :
    GraphOK g' := by
  obtain ⟨hn, hnb, _, _⟩ := add_node_ok_elim hok
  show DOK g'.neighborhood
  rw [hnb]
  exact DOK.set_fresh h hn

theorem GraphOK.add_interaction_pres (g : PairwiseNeighborhood) (n1 n2 : Nat)
    (meta : PyVal) (h : GraphOK g) : GraphOK (g.add_interaction n1 n2 meta) := by
  show DOK (g.add_interaction n1 n2 meta).neighborhood
  rw [add_interaction_neighborhood]
  by_cases h1 : n1 ∈ g.neighborhood.keys
  · rw [if_pos h1]
    by_cases h2 : n2 ∈ g.neighborhood.keys
    · rw [if_pos h2]
      exact DOK.pairAdd_mem h h1 h2
    · rw [if_neg h2]
      exact DOK.pairAdd_mem (DOK.set_fresh h h2)
        (by rw [PyDict.setGen_keys]; exact Finset.mem_insert_of_mem h1)
        (by rw [PyDict.setGen_keys]; exact Finset.mem_insert_self n2 _)
  · rw [if_neg h1]
    have hD1 : DOK (g.neighborhood.set n1 ∅) := DOK.set_fresh h h1
    have hmem1 : n1 ∈ (g.neighborhood.set n1 ∅).keys := by
      rw [PyDict.setGen_keys]; exact Finset.mem_insert_self n1 _
    by_cases h2 : n2 ∈ (g.neighborhood.set n1 ∅).keys
    · rw [if_pos h2]
      exact DOK.pairAdd_mem hD1 hmem1 h2
    · rw [if_neg h2]
      exact DOK.pairAdd_mem (DOK.set_fresh hD1 h2)
        (by rw [PyDict.setGen_keys]; exact Finset.mem_insert_of_mem hmem1)
        (by rw [PyDict.setGen_keys]; exact Finset.mem_insert_self n2 _)

theorem GraphOK.remove_interaction_pres {g g' : PairwiseNeighborhood}
    {n1 n2 : Nat} (h : GraphOK g)
    (hok : g.remove_interaction n1 n2 = Except.ok g') : GraphOK g' := by
  obtain ⟨h1, h2, _, _, hnb, _, _⟩ := remove_interaction_ok_elim hok
  show DOK g'.neighborhood
  rw [hnb]
  constructor
  · intro a ha b hab
    rw [PyDict.setRemove_keys, PyDict.setRemove_keys] at ha ⊢
    rw [PyDict.mem_setRemove2_val] at hab
    exact h.1 a ha b hab.1
  · intro a b ha hb
    rw [PyDict.setRemove_keys, PyDict.setRemove_keys] at ha hb
    rw [PyDict.mem_setRemove2_val, PyDict.mem_setRemove2_val]
    have hold := h.2 a b ha hb
    tauto

theorem GraphOK.remove_node_pres {g g' : PairwiseNeighborhood} {nid : Nat}
    (h : GraphOK g) (hok : g.remove_node nid = Except.ok g') : GraphOK g' := by
  obtain ⟨hmem, hkeys, hval, _, _⟩ := remove_node_ok_elim hok
  constructor
  · intro a ha b hab
    rw [hkeys, Finset.mem_erase] at ha
    have hab' : b ∈ (if a ∈ g.neighborhood.val nid
        then (g.neighborhood.val a).erase nid else g.neighborhood.val a) := by
      rw [hval] at hab
      exact hab
    rw [hkeys, Finset.mem_erase]
    by_cases hA : a ∈ g.neighborhood.val nid
    · rw [if_pos hA, Finset.mem_erase] at hab'
      exact ⟨hab'.1, h.1 a ha.2 b hab'.2⟩
    · rw [if_neg hA] at hab'
      refine ⟨?_, h.1 a ha.2 b hab'⟩
      intro hc
      subst hc
      exact hA ((h.2 a b ha.2 hmem).mp hab')
  · intro a b ha hb
    rw [hkeys, Finset.mem_erase] at ha hb
    have hva : g'.neighborhood.val a = (if a ∈ g.neighborhood.val nid
        then (g.neighborhood.val a).erase nid else g.neighborhood.val a) := by
      rw [hval]
    have hvb : g'.neighborhood.val b = (if b ∈ g.neighborhood.val nid
        then (g.neighborhood.val b).erase nid else g.neighborhood.val b) := by
      rw [hval]
    rw [hva, hvb]
    have hold := h.2 a b ha.2 hb.2
    by_cases hA : a ∈ g.neighborhood.val nid <;>
      by_cases hB : b ∈ g.neighborhood.val nid
    · rw [if_pos hA, if_pos hB, Finset.mem_erase, Finset.mem_erase]
      tauto
    · rw [if_pos hA, if_neg hB, Finset.mem_erase]
      tauto
    · rw [if_neg hA, if_pos hB, Finset.mem_erase]
      tauto
    · rw [if_neg hA, if_neg hB]
      tauto

theorem hex_graphOK {rows cols : Nat} {bd : Bool} {g : PairwiseNeighborhood}
    (hr : 1 ≤ rows) (hc : 1 ≤ cols)
    (hok : hex2d_to_pairwise_neighborhood rows cols bd = Except.ok g) :
    GraphOK g := by
  obtain ⟨hinv, hge, _⟩ := hex_main_spec rows cols hr hc
  cases bd
  · rw [hex_false_ok_elim hok]
    exact SInv.graphOK (g := PairwiseNeighborhood.ofNeighborhood _) hinv.toSInv
  · obtain ⟨_, hg⟩ := hex_true_ok_elim hok
    rw [hg]
    exact SInv.graphOK (g := PairwiseNeighborhood.ofNeighborhood _)
      (hexBd_SInv rows cols hr hc hge _ hinv.toSInv)

/-- The graphs of the claims: produced by one of the three implemented
generators with valid parameters, then evolved by any sequence of the
four mutation operations, each applied with its preconditions satisfied
(i.e. returning normally rather than raising). -/
inductive Reachable : PairwiseNeighborhood → Prop where
  | linear_gen (Np : Nat) (bd : Bool) (h : 1 ≤ Np) :
      Reachable (linear_to_pairwise_neighborhood Np bd)
  | rect_gen (rows cols : Nat) (bd : Bool) (hr : 1 ≤ rows) (hc : 1 ≤ cols) :
      Reachable (rect2d_to_pairwise_von_neumann_neighborhood rows cols bd)
  | hex_gen (rows cols : Nat) (bd : Bool) (g : PairwiseNeighborhood)
      (hr : 1 ≤ rows) (hc : 1 ≤ cols)
      (hok : hex2d_to_pairwise_neighborhood rows cols bd = Except.ok g) :
      Reachable g
  | add_node_step (g g' : PairwiseNeighborhood) (nid : Nat) (meta : PyVal)
      (hg : Reachable g) (hok : g.add_node nid meta = Except.ok g') :
      Reachable g'
  | add_interaction_step (g : PairwiseNeighborhood) (n1 n2 : Nat) (meta : PyVal)
      (hg : Reachable g) : Reachable (g.add_interaction n1 n2 meta)
  | remove_interaction_step (g g' : PairwiseNeighborhood) (n1 n2 : Nat)
      (hg : Reachable g) (hok : g.remove_interaction n1 n2 = Except.ok g') :
      Reachable g'
  | remove_node_step (g g' : PairwiseNeighborhood) (nid : Nat)
      (hg : Reachable g) (hok : g.remove_node nid = Except.ok g') :
      Reachable g'

theorem reachable_graphOK : ∀ g : PairwiseNeighborhood, Reachable g → GraphOK g := by
  intro g h
  induction h with
  | linear_gen Np bd h1 => exact SInv.graphOK (linear_DInv Np h1 bd).toSInv
  | rect_gen rows cols bd hr hc => exact SInv.graphOK (rect_SInv rows cols hr hc bd)
  | hex_gen rows cols bd g hr hc hok => exact hex_graphOK hr hc hok
  | add_node_step g g' nid meta hg hok ih => exact GraphOK.add_node_pres ih hok
  | add_interaction_step g n1 n2 meta hg ih =>
      exact GraphOK.add_interaction_pres g n1 n2 meta ih
  | remove_interaction_step g g' n1 n2 hg hok ih =>
      exact GraphOK.remove_interaction_pres ih hok
  | remove_node_step g g' nid hg hok ih => exact GraphOK.remove_node_pres ih hok

/-- C1 claim theorem: every graph produced by a generator with valid
parameters, or obtained from one by a sequence of successful mutation
operations, has mirrored neighbor sets. -/
theorem c1_symmetry_invariant (g : PairwiseNeighborhood) (hg : Reachable g) :
    ∀ a b : Nat, b ∈ g.get_neighbors a ↔ a ∈ g.get_neighbors b :=
  (reachable_graphOK g hg).nbrs_symm

/-- C1 witness: symmetry after a mutation of a generated ring. -/
theorem c1_symmetry_invariant_witness :
    7 ∈ ((linear_to_pairwise_neighborhood 5 true).add_interaction 2 7
        PyVal.none).get_neighbors 2 ↔
      2 ∈ ((linear_to_pairwise_neighborhood 5 true).add_interaction 2 7
        PyVal.none).get_neighbors 7 :=
  c1_symmetry_invariant _
    (Reachable.add_interaction_step _ 2 7 PyVal.none
      (Reachable.linear_gen 5 true (by decide))) 2 7

/-- C2 claim theorem (amended): on a graph satisfying the structure's
own invariant, `remove_node x` removes the node, every reciprocal
adjacency entry, the node's metadata, and the edge metadata of every
pair `(x, o)`/`(o, x)` for `o` a neighbor of `x`.  Edge metadata stored
for a pair with no corresponding adjacency entry is *not* removed (see
the counterexample). -/
theorem c2_removal_cascade (g g' : PairwiseNeighborhood) (x : Nat)
    (hOK : GraphOK g) (hok : g.remove_node x = Except.ok g') :
    x ∉ g'.neighborhood.keys ∧
    (∀ a, x ∉ g'.get_neighbors a) ∧
    x ∉ g'.node_metadata.keys ∧
    (∀ o, o ∈ g.get_neighbors x →
      (x, o) ∉ g'.interaction_metadata.keys ∧
      (o, x) ∉ g'.interaction_metadata.keys) := by
  obtain ⟨hmem, hkeys, hval, hnm, him⟩ := remove_node_ok_elim hok
  refine ⟨?_, ?_, ?_, ?_⟩
  · rw [hkeys]
    exact Finset.not_mem_erase x _
  · intro a ha
    rw [mem_get_neighbors] at ha
    obtain ⟨hak, hav⟩ := ha
    rw [hkeys, Finset.mem_erase] at hak
    have hav' : x ∈ (if a ∈ g.neighborhood.val x
        then (g.neighborhood.val a).erase x else g.neighborhood.val a) := by
      rw [hval] at hav
      exact hav
    by_cases hA : a ∈ g.neighborhood.val x
    · rw [if_pos hA] at hav'
      exact absurd hav' (Finset.not_mem_erase x _)
    · rw [if_neg hA] at hav'
      exact hA ((hOK.2 a x hak.2 hmem).mp hav')
  · rw [hnm]
    exact Finset.not_mem_erase x _
  · intro o ho
    rw [mem_get_neighbors] at ho
    constructor
    · intro hc
      rw [him, Finset.mem_filter] at hc
      exact hc.2 (Or.inl ⟨rfl, ho.2⟩)
    · intro hc
      rw [him, Finset.mem_filter] at hc
      exact hc.2 (Or.inr ⟨rfl, ho.2⟩)

/-- C2 counterexample: metadata attached via `add_interaction_metadata`
to a pair of nodes with *no* adjacency entry survives `remove_node` of
either endpoint, because the removal loop only visits actual neighbors. -/
theorem c2_removal_cascade_counterexample :
    (match (⟨NDict.dempty, MDict.dempty, IMDict.dempty⟩ :
        PairwiseNeighborhood).add_node 0 PyVal.none with
     | .ok g1 =>
       match g1.add_node 1 PyVal.none with
       | .ok g2 =>
         match g2.add_interaction_metadata 0 1 (PyVal.int 7) with
         | .ok g3 =>
           match g3.remove_node 0 with
           | .ok g4 => decide ((0, 1) ∈ g4.interaction_metadata.keys)
           | .error _ => false
         | .error _ => false
       | .error _ => false
     | .error _ => false) = true := by
  decide

/-- The concrete graph for the C2 witness: nodes 0 and 1 joined by an
interaction carrying metadata. -/
def c2ExampleGraph : PairwiseNeighborhood :=
  ((⟨NDict.dempty, MDict.dempty, IMDict.dempty⟩ :
    PairwiseNeighborhood).add_interaction 0 1 (PyVal.int 3))

/-- The C2 witness graph after `remove_node 0`. -/
def c2ExampleRemoved : PairwiseNeighborhood :=
  (c2ExampleGraph.remove_node 0).toOption.getD c2ExampleGraph

/-- C2 witness: the cascade on the concrete two-node graph. -/
theorem c2_removal_cascade_witness :
    0 ∉ c2ExampleRemoved.neighborhood.keys ∧
    0 ∉ c2ExampleRemoved.get_neighbors 1 ∧
    0 ∉ c2ExampleRemoved.node_metadata.keys ∧
    ((0, 1) ∉ c2ExampleRemoved.interaction_metadata.keys ∧
     (1, 0) ∉ c2ExampleRemoved.interaction_metadata.keys) := by
  have hOK : GraphOK c2ExampleGraph :=
    GraphOK.add_interaction_pres _ 0 1 (PyVal.int 3) GraphOK.emptyPN
  have hok : c2ExampleGraph.remove_node 0 = Except.ok c2ExampleRemoved := rfl
  obtain ⟨h1, h2, h3, h4⟩ := c2_removal_cascade c2ExampleGraph c2ExampleRemoved 0 hOK hok
  exact ⟨h1, h2 1, h3, h4 1 (by decide)⟩

theorem PyDict.get?_set_self {α β : Type} [DecidableEq α] (d : PyDict α β)
    (k : α) (v : β) : (d.set k v).get? k = some v := by
  unfold PyDict.get? PyDict.set
  rw [if_pos (Finset.mem_insert_self k d.keys)]
  show some (Function.update d.val k v k) = some v
  rw [Function.update_same]

theorem PyDict.get?_set_other {α β : Type} [DecidableEq α] {d : PyDict α β}
    {k' k : α} {v : β} (hne : k' ≠ k) : (d.set k v).get? k' = d.get? k' := by
  unfold PyDict.get? PyDict.set
  show (if k' ∈ insert k d.keys then some (Function.update d.val k v k') else none)
    = (if k' ∈ d.keys then some (d.val k') else none)
  rw [Function.update_apply, if_neg hne]
  by_cases h : k' ∈ d.keys
  · rw [if_pos (Finset.mem_insert_of_mem h), if_pos h]
  · rw [if_neg (by rw [Finset.mem_insert]; tauto), if_neg h]

/-- C10 claim theorem: with a falsy metadata value, `add_node` and
`add_interaction` succeed but store nothing, while `add_node_metadata`
and `add_interaction_metadata` store any value unconditionally. -/
theorem c10_falsy_metadata (v : PyVal) (g : PairwiseNeighborhood)
    (nid1 nid2 : Nat) :
    (v.truthy = false →
      (∀ g1, g.add_node nid1 v = Except.ok g1 →
        g1.node_metadata = g.node_metadata) ∧
      (g.add_interaction nid1 nid2 v).interaction_metadata
        = g.interaction_metadata) ∧
    (∀ g2, g.add_node_metadata nid1 v = Except.ok g2 →
      g2.get_node_metadata nid1 = some v) ∧
    (∀ g3, g.add_interaction_metadata nid1 nid2 v = Except.ok g3 →
      g3.get_interaction_metadata nid1 nid2 = some v ∧
      g3.get_interaction_metadata nid2 nid1 = some v) ∧
    (v.truthy = false → ∀ g1, g.add_node nid1 v = Except.ok g1 →
      nid1 ∉ g.node_metadata.keys →
      g1.get_node_metadata nid1 = Option.none) := by
  refine ⟨?_, ?_, ?_, ?_⟩
  · intro hfalsy
    constructor
    · intro g1 hok
      obtain ⟨_, _, hmd, _⟩ := add_node_ok_elim hok
      rw [hmd, if_neg (by rw [hfalsy]; exact Bool.false_ne_true)]
    · rw [add_interaction_im, if_neg (by rw [hfalsy]; exact Bool.false_ne_true)]
  · intro g2 hok
    obtain ⟨_, _, hmd⟩ := add_node_metadata_ok_elim hok
    unfold PairwiseNeighborhood.get_node_metadata
    rw [hmd, PyDict.get?_set_self]
  · intro g3 hok
    obtain ⟨_, _, _, him⟩ := add_interaction_metadata_ok_elim hok
    unfold PairwiseNeighborhood.get_interaction_metadata
    rw [him]
    constructor
    · by_cases hp : (nid1, nid2) = (nid2, nid1)
      · rw [hp, PyDict.get?_set_self]
      · rw [PyDict.get?_set_other hp, PyDict.get?_set_self]
    · rw [PyDict.get?_set_self]
  · intro hfalsy g1 hok hnm
    obtain ⟨_, _, hmd, _⟩ := add_node_ok_elim hok
    unfold PairwiseNeighborhood.get_node_metadata PyDict.get?
    rw [hmd, hfalsy, if_neg Bool.false_ne_true, if_neg hnm]

/-- The concrete graph for the C10 witness: nodes 0 and 1 joined by a
metadata-free interaction. -/
def c10ExampleGraph : PairwiseNeighborhood :=
  ((⟨NDict.dempty, MDict.dempty, IMDict.dempty⟩ :
    PairwiseNeighborhood).add_interaction 0 1 PyVal.none)

/-- C10 witness graph: `add_node 2` with the falsy value `0`. -/
def c10AddedNode : PairwiseNeighborhood :=
  (c10ExampleGraph.add_node 2 (PyVal.int 0)).toOption.getD c10ExampleGraph

/-- C10 witness graph: `add_node_metadata 0` with the falsy value `0`. -/
def c10SetNodeMd : PairwiseNeighborhood :=
  (c10ExampleGraph.add_node_metadata 0 (PyVal.int 0)).toOption.getD c10ExampleGraph

/-- C10 witness graph: `add_interaction_metadata 0 1` with the falsy
empty string. -/
def c10SetIntMd : PairwiseNeighborhood :=
  (c10ExampleGraph.add_interaction_metadata 0 1
    (PyVal.str "")).toOption.getD c10ExampleGraph

/-- C10 witness: falsy values dropped by the adders, stored by the
setters, on concrete graphs. -/
theorem c10_falsy_metadata_witness :
    c10AddedNode.node_metadata = c10ExampleGraph.node_metadata ∧
    (c10ExampleGraph.add_interaction 0 1 (PyVal.int 0)).interaction_metadata
      = c10ExampleGraph.interaction_metadata ∧
    c10SetNodeMd.get_node_metadata 0 = some (PyVal.int 0) ∧
    c10SetIntMd.get_interaction_metadata 0 1 = some (PyVal.str "") ∧
    c10AddedNode.get_node_metadata 2 = Option.none := by
  refine ⟨?_, ?_, ?_, ?_, ?_⟩
  · exact ((c10_falsy_metadata (PyVal.int 0) c10ExampleGraph 2 0).1
      (by decide)).1 c10AddedNode rfl
  · exact ((c10_falsy_metadata (PyVal.int 0) c10ExampleGraph 0 1).1
      (by decide)).2
  · exact (c10_falsy_metadata (PyVal.int 0) c10ExampleGraph 0 1).2.1
      c10SetNodeMd rfl
  · exact ((c10_falsy_metadata (PyVal.str "") c10ExampleGraph 0 1).2.2.1
      c10SetIntMd rfl).1
  · exact (c10_falsy_metadata (PyVal.int 0) c10ExampleGraph 2 0).2.2.2
      (by decide) c10AddedNode rfl (by decide)
